import Mathlib

/-!
# encoding.Unmarshaler: filling a struct from an AMF0 stream

Shallow embedding of `src/encoding/unmarshaler.go`.

`Unmarshal` walks the fields of the struct that `dest` points to; for each field it asks the
value decoder for one value, skips the field when the value is bodyless and the field can hold
nil, and otherwise converts the value to the field's type and stores it.

Modelling choices.

* The destination is the struct behind `reflect.ValueOf(dest).Elem()`: the ordered list of its
  fields, each with its declaration and its current content. `dest` is a non-nil pointer to a
  struct, so the struct is addressable and `v.NumField` is defined on it.
* A field of the struct may be unexported. `reflect` then hands out a read-only value for it:
  `field.Set` (line 70) and `field.Interface` (line 57) panic. Both panics are part of the
  model (`Lib.CanSet`, `Lib.CanInterface`).
* Package `reflect`, `fmt.Errorf` and package `amf0` are library code outside this repository's
  `src/`. What `Unmarshal` calls of them is collected in the structure `Lib` and taken as a
  parameter; a call that panics in Go is `none`.
* The value decoder `u.decode` reads from `u.r`: a function from the reader's state to the
  decoded value or error, together with the reader's next state.
* A Go function either returns or panics; `Outcome` has one constructor for `return nil`, one
  for `return err` and one for a panic. The number of calls made to the decoder is kept as a
  ghost counter in the state.
-/

namespace Amf0

/-- The kinds of Go's `reflect.Kind`, in the order of their declaration. -/
inductive Kind where
  | Invalid | Bool | Int | Int8 | Int16 | Int32 | Int64
  | Uint | Uint8 | Uint16 | Uint32 | Uint64 | Uintptr
  | Float32 | Float64 | Complex64 | Complex128
  | Array | Chan | Func | Interface | Map | Ptr | Slice | String | Struct | UnsafePointer
  deriving DecidableEq, Repr

/-- The library calls made by `Unmarshal`, over field declarations `T` (the declared type of a
struct field, a `reflect.Type`, together with what `reflect` records of the field's name:
whether it is exported), values `V` (a `reflect.Value`), decoded values `A` (an
`amf0.AmfType`) and errors `E` (Go's `error`). -/
structure Lib (T V A E : Type) where
  /-- The kind of a type: `reflect.Value.Kind` of a field of that type. -/
  KindOf : T → Kind
  /-- What the verb `%T` prints for a value of the type. -/
  TypeString : T → String
  /-- The answer of `reflect.Value.CanSet` for a field of the destination: false for an
  unexported field, on which `reflect.Value.Set` panics. -/
  CanSet : T → Bool
  /-- The answer of `reflect.Value.CanInterface` for a field of the destination: false for an
  unexported field, on which `reflect.Value.Interface` panics. -/
  CanInterface : T → Bool
  /-- The value `reflect.ValueOf(next)`. -/
  ValueOf : A → V
  /-- The call `reflect.Value.Elem`; `none` when it panics. -/
  Elem : V → Option V
  /-- The call `reflect.Value.Convert`; `none` when it panics. -/
  Convert : V → T → Option V
  /-- The type assertion `t.(amf0.Bodyless)` followed by `IsBodyless`: `none` when the value
  does not implement `amf0.Bodyless`, otherwise what `IsBodyless` answers. -/
  Bodyless : A → Option Bool
  /-- The error made by `fmt.Errorf` from the formatted message. -/
  Errorf : String → E

/-- One field of the destination struct: its declaration (declared type, exported or not) and
its current content. -/
structure Field (T V : Type) where
  typ : T
  val : V
  deriving DecidableEq, Repr

/-- How a call of `Unmarshal` ends. -/
inductive Outcome (E : Type) where
  /-- The call `return nil`. -/
  | nil
  /-- The call `return err` with a non-nil error. -/
  | err (e : E)
  /-- A run-time panic raised by a library call. -/
  | panic
  deriving DecidableEq, Repr

/-- The state `Unmarshal` works on: the destination's fields, the reader `u.r`, and the number
of calls made to `u.decode` so far. -/
structure St (T V R : Type) where
  v : List (Field T V)
  r : R
  calls : Nat
  deriving DecidableEq, Repr

/-- What the body of the loop does at its end: go on with the next index, or leave the
function. -/
inductive Ctl (E : Type) where
  | next
  | ret (o : Outcome E)
  deriving DecidableEq, Repr

section Code

variable {T V A E R : Type}

/-- The method `canAssignNil` (lines 76-86). -/
def canAssignNil (L : Lib T V A E) (f : Field T V) : Bool :=
  let kind := L.KindOf f.typ
  kind == Kind.Array ||
    kind == Kind.Chan ||
    kind == Kind.Func ||
    kind == Kind.Interface ||
    kind == Kind.Map ||
    kind == Kind.Ptr ||
    kind == Kind.Slice

/-- The method `isBodyless` (lines 90-96). -/
def isBodyless (L : Lib T V A E) (t : A) : Bool :=
  match L.Bodyless t with
  | some answer => answer
  | none => false

/-- Lines 63-68: the value `val` chosen for the field; `none` when `Elem` panics. -/
def reduce (L : Lib T V A E) (field : Field T V) (next : A) : Option V :=
  if canAssignNil L field then
    some (L.ValueOf next)
  else
    L.Elem (L.ValueOf next)

/-- Lines 63-70 up to the call of `Set`: the value `val.Convert(field.Type())`; `none` when
`Elem` or `Convert` panics. -/
def converted (L : Lib T V A E) (field : Field T V) (next : A) : Option V :=
  match reduce L field next with
  | none => none
  | some val => L.Convert val field.typ

/-- Lines 63-70: convert the decoded value and store it in field `i`. The argument of `Set`
is evaluated first; `Set` then panics when the field cannot be set. -/
def assign (L : Lib T V A E) (i : Nat) (field : Field T V) (next : A) (s : St T V R) :
    Ctl E × St T V R :=
  match converted L field next with
  | none => (Ctl.ret Outcome.panic, s)
  | some c =>
    if L.CanSet field.typ then
      (Ctl.next, ⟨s.v.set i ⟨field.typ, c⟩, s.r, s.calls⟩)
    else
      (Ctl.ret Outcome.panic, s)

/-- The error of lines 55-57; `none` when `field.Interface()`, the argument of `fmt.Errorf`,
panics. -/
def nilError (L : Lib T V A E) (field : Field T V) : Option E :=
  if L.CanInterface field.typ then
    some (L.Errorf ("amf0: unable to assign nil to type " ++ L.TypeString field.typ))
  else
    none

/-- The body of the loop (lines 46-70) at index `i`. -/
def body (L : Lib T V A E) (decode : R → Except E A × R) (i : Nat) (s : St T V R) :
    Ctl E × St T V R :=
  match s.v[i]? with
  | none => (Ctl.ret Outcome.panic, s)
  | some field =>
    let d := decode s.r
    let s1 : St T V R := ⟨s.v, d.2, s.calls + 1⟩
    match d.1 with
    | Except.error e => (Ctl.ret (Outcome.err e), s1)
    | Except.ok next =>
      if isBodyless L next then
        if !canAssignNil L field then
          match nilError L field with
          | some e => (Ctl.ret (Outcome.err e), s1)
          | none => (Ctl.ret Outcome.panic, s1)
        else
          (Ctl.next, s1)
      else
        assign L i field next s1

/-- The loop of lines 45-73 from index `i`, with `n` indices left below `v.NumField()`. -/
def loop (L : Lib T V A E) (decode : R → Except E A × R) : Nat → Nat → St T V R →
    Outcome E × St T V R
  | 0, _, s => (Outcome.nil, s)
  | n + 1, i, s =>
    match body L decode i s with
    | (Ctl.next, s') => loop L decode n (i + 1) s'
    | (Ctl.ret o, s') => (o, s')

/-- The method `Unmarshal` (lines 42-74) on the struct `dest` points to and the reader `r`. -/
def Unmarshal (L : Lib T V A E) (decode : R → Except E A × R) (dest : List (Field T V))
    (r : R) : Outcome E × St T V R :=
  loop L decode dest.length 0 ⟨dest, r, 0⟩

/-- The reader after `i` calls of the decoder, starting from `r`. -/
def readerAt (decode : R → Except E A × R) (r : R) (i : Nat) : R :=
  (fun x => (decode x).2)^[i] r

/-- What the `i`-th call of the decoder (counting from 0) returns on the stream `r`. -/
def decoded (decode : R → Except E A × R) (r : R) (i : Nat) : Except E A :=
  (decode (readerAt decode r i)).1

end Code

/-! ## The loop as a recursion over the fields still to fill

`fill` is the loop read off the list of fields that are still to be filled: it is what the
loop computes from index `i` on, seen from the fields at index `i` and above. It is proved
equal to `Unmarshal` below (`Unmarshal_eq_fill`) and used to reason about it. -/

section Fill

variable {T V A E R : Type}

/-- What one round of the loop comes to for a field: the loop stops with an outcome, or goes
on with the field as the round leaves it. -/
inductive Round (T V E : Type) where
  | stop (o : Outcome E)
  | next (g : Field T V)

/-- One round of the loop (lines 48-70) on the field `f`, given what the call of the decoder
returned. -/
def round (L : Lib T V A E) (f : Field T V) (d : Except E A) : Round T V E :=
  match d with
  | Except.error e => Round.stop (Outcome.err e)
  | Except.ok next =>
    if isBodyless L next then
      if canAssignNil L f then Round.next f
      else
        match nilError L f with
        | some e => Round.stop (Outcome.err e)
        | none => Round.stop Outcome.panic
    else
      match converted L f next with
      | none => Round.stop Outcome.panic
      | some c => if L.CanSet f.typ then Round.next ⟨f.typ, c⟩ else Round.stop Outcome.panic

/-- The result of the rest of the loop, put behind the field `g` just handled. -/
def afterField (g : Field T V) (res : Outcome E × St T V R) : Outcome E × St T V R :=
  (res.1, ⟨g :: res.2.v, res.2.r, res.2.calls + 1⟩)

/-- The loop on the fields `fs` still to fill, reading from `r`. -/
def fill (L : Lib T V A E) (decode : R → Except E A × R) :
    List (Field T V) → R → Outcome E × St T V R
  | [], r => (Outcome.nil, ⟨[], r, 0⟩)
  | f :: fs, r =>
    match round L f (decode r).1 with
    | Round.stop o => (o, ⟨f :: fs, (decode r).2, 1⟩)
    | Round.next g => afterField g (fill L decode fs (decode r).2)

/-- The result of a run on the fields `A` followed by a run `q` on further fields. -/
def andThen (p q : Outcome E × St T V R) : Outcome E × St T V R :=
  (q.1, ⟨p.2.v ++ q.2.v, q.2.r, p.2.calls + q.2.calls⟩)

end Fill

end Amf0

/-! ## The decoded values of package amf0

Package `amf0` is not part of `src/`; its value types are taken from the data model of the
specification. -/

namespace Amf0

/-- Modelled from the spec: the variants of a decoded value (the value types of package
`amf0`, which is not under `src/`), as listed in the data model. -/
inductive AmfTag where
  | Number | Boolean | String | Object | Null | Undefined | Reference
  | EcmaArray | StrictArray | Date | LongString | Unsupported | XmlDocument | TypedObject
  deriving DecidableEq, Repr

/-- Modelled from the spec: the Bodyless capability of package `amf0` (not under `src/`). It
is attached to the variants Null and Undefined, which answer true; no other variant has it. -/
def AmfTag.bodyless : AmfTag → Option Bool
  | AmfTag.Null => some true
  | AmfTag.Undefined => some true
  | _ => none

end Amf0

/-! ## A fragment of Go for concrete runs

A small universe of Go types and values, with `reflect` restricted to it, on which the
scenarios of the specification are run. Pointers are represented by the value they point at;
a struct field is declared by its type and by whether its name is exported. -/

namespace Amf0.Go

/-- Go types: `string`, `int`, `struct{}`, pointers, the arrays `[len]int`, and three named
types of package `amf0`: `amf0.String`, taken as a string type, and `amf0.Null` and
`amf0.Undefined`, taken as empty struct types. -/
inductive GoType where
  | string | int | emptyStruct
  | amfString | amfNull | amfUndefined
  | ptr (elem : GoType)
  | intArray (len : Nat)
  deriving DecidableEq, Repr

/-- Go values as seen through `reflect.Value`. -/
inductive GoValue where
  /-- The zero `reflect.Value`. -/
  | invalid
  /-- A string of the string type `t`. -/
  | str (t : GoType) (s : String)
  /-- An `int`. -/
  | int (n : Int)
  /-- The empty struct of the struct type `t`. -/
  | unit (t : GoType)
  /-- The nil pointer of type `*elem`. -/
  | nilPtr (elem : GoType)
  /-- A pointer of type `*elem` to the value `target`. -/
  | ptrTo (elem : GoType) (target : GoValue)
  /-- An array of `int`, of the type `[len]int` for the number `len` of its elements. -/
  | ints (elems : List Int)
  deriving DecidableEq, Repr

/-- The underlying type of a type. -/
def GoType.underlying : GoType → GoType
  | GoType.amfString => GoType.string
  | GoType.amfNull => GoType.emptyStruct
  | GoType.amfUndefined => GoType.emptyStruct
  | t => t

/-- The kind of a type. -/
def GoType.kind : GoType → Kind
  | GoType.string => Kind.String
  | GoType.int => Kind.Int
  | GoType.emptyStruct => Kind.Struct
  | GoType.amfString => Kind.String
  | GoType.amfNull => Kind.Struct
  | GoType.amfUndefined => Kind.Struct
  | GoType.ptr _ => Kind.Ptr
  | GoType.intArray _ => Kind.Array

/-- What `%T` prints for a value of the type. -/
def GoType.name : GoType → String
  | GoType.string => "string"
  | GoType.int => "int"
  | GoType.emptyStruct => "struct \x7b\x7d"
  | GoType.amfString => "amf0.String"
  | GoType.amfNull => "amf0.Null"
  | GoType.amfUndefined => "amf0.Undefined"
  | GoType.ptr t => "*" ++ t.name
  | GoType.intArray len => "[" ++ toString len ++ "]int"

/-- The zero value of a type. -/
def GoType.zero : GoType → GoValue
  | GoType.string => GoValue.str GoType.string ""
  | GoType.int => GoValue.int 0
  | GoType.emptyStruct => GoValue.unit GoType.emptyStruct
  | GoType.amfString => GoValue.str GoType.amfString ""
  | GoType.amfNull => GoValue.unit GoType.amfNull
  | GoType.amfUndefined => GoValue.unit GoType.amfUndefined
  | GoType.ptr t => GoValue.nilPtr t
  | GoType.intArray len => GoValue.ints (List.replicate len 0)

/-- The variant of package `amf0` a type stands for. -/
def GoType.tag : GoType → Option AmfTag
  | GoType.amfString => some AmfTag.String
  | GoType.amfNull => some AmfTag.Null
  | GoType.amfUndefined => some AmfTag.Undefined
  | _ => none

/-- The dynamic type of a value; the zero `reflect.Value` has none. -/
def GoValue.typeOf : GoValue → Option GoType
  | GoValue.invalid => none
  | GoValue.str t _ => some t
  | GoValue.int _ => some GoType.int
  | GoValue.unit t => some t
  | GoValue.nilPtr t => some (GoType.ptr t)
  | GoValue.ptrTo t _ => some (GoType.ptr t)
  | GoValue.ints elems => some (GoType.intArray elems.length)

/-- Go's conversion rules on the fragment: identical underlying types; two pointer types whose
base types have identical underlying types; an integer to a string type. -/
def convertible (s t : GoType) : Bool :=
  decide (s.underlying = t.underlying) ||
    (match s, t with
      | GoType.ptr a, GoType.ptr b => decide (a.underlying = b.underlying)
      | _, _ => false) ||
    (decide (s.underlying = GoType.int) && decide (t.underlying = GoType.string))

/-- The string Go makes of an integer: its code point in UTF-8, or U+FFFD when it is none. -/
def runeString (n : Int) : String :=
  if (0 ≤ n ∧ n < 0xD800) ∨ (0xE000 ≤ n ∧ n ≤ 0x10FFFF) then
    String.singleton (Char.ofNat n.toNat)
  else
    "�"

/-- A value seen at the type `t` it is convertible to. -/
def GoValue.retype : GoValue → GoType → GoValue
  | GoValue.str _ s, t => GoValue.str t s
  | GoValue.int n, t =>
    if t.underlying = GoType.string then GoValue.str t (runeString n) else GoValue.int n
  | GoValue.unit _, t => GoValue.unit t
  | GoValue.nilPtr _, GoType.ptr b => GoValue.nilPtr b
  | GoValue.ptrTo _ target, GoType.ptr b => GoValue.ptrTo b (target.retype b)
  | v, _ => v

/-- The call `reflect.Value.Convert` on the fragment: it panics on the zero Value and when the
conversion rules do not allow the conversion. -/
def Convert (v : GoValue) (t : GoType) : Option GoValue :=
  match v.typeOf with
  | none => none
  | some s => if convertible s t then some (v.retype t) else none

/-- The call `reflect.Value.Elem` on the fragment: the value a pointer points to, the zero
Value for a nil pointer, a panic for a value that is no pointer. -/
def Elem : GoValue → Option GoValue
  | GoValue.ptrTo _ target => some target
  | GoValue.nilPtr _ => some GoValue.invalid
  | _ => none

/-- Modelled from the spec: which decoded values implement `amf0.Bodyless` (package `amf0` is
not under `src/`) and what they answer. The decoder hands back pointers; the pointers to
`amf0.Null` and to `amf0.Undefined` carry the capability. -/
def Bodyless (a : GoValue) : Option Bool :=
  match a.typeOf with
  | some (GoType.ptr t) =>
    match t.tag with
    | some tag => tag.bodyless
    | none => none
  | _ => none

/-- A field as a struct type declares it: its type, and whether its name is exported. -/
structure GoField where
  type : GoType
  exported : Bool
  deriving DecidableEq, Repr

/-- The library on the fragment; an `error` is its message. A field can be set, and handed
out by `Interface`, exactly when it is exported. -/
def goLib : Lib GoField GoValue GoValue String :=
  ⟨fun d => d.type.kind, fun d => d.type.name, fun d => d.exported, fun d => d.exported,
    fun a => a, Elem, fun v d => Convert v d.type, Bodyless, fun msg => msg⟩

/-- A value decoder handing out the values of a prepared sequence, one a call, and failing
with `EOF` at its end. -/
def decodeList : List GoValue → Except String GoValue × List GoValue
  | [] => (Except.error "EOF", [])
  | x :: xs => (Except.ok x, xs)

/-- A freshly default-initialised struct with exported fields of the given types. -/
def fresh (ts : List GoType) : List (Field GoField GoValue) :=
  ts.map fun t => ⟨⟨t, true⟩, t.zero⟩

/-- The value `*amf0.String` the decoder hands back for the string `s`. -/
def amfStringOf (s : String) : GoValue :=
  GoValue.ptrTo GoType.amfString (GoValue.str GoType.amfString s)

/-- The value `*amf0.Null` the decoder hands back for a null. -/
def amfNullValue : GoValue :=
  GoValue.ptrTo GoType.amfNull (GoValue.unit GoType.amfNull)

/-- The value `*amf0.Undefined` the decoder hands back for an undefined. -/
def amfUndefinedValue : GoValue :=
  GoValue.ptrTo GoType.amfUndefined (GoValue.unit GoType.amfUndefined)

end Amf0.Go

namespace Amf0
section Lemmas
variable {T V A E R : Type}

/-! ### One round of the loop -/

/-- A round that stops does not stop with `return nil`. -/
theorem round_stop_ne_nil (L : Lib T V A E) (f : Field T V) (d : Except E A) (o : Outcome E)
    (h : round L f d = Round.stop o) : o ≠ Outcome.nil := by
  unfold round at h
  cases d with
  | error e =>
    simp only [Round.stop.injEq] at h
    rw [← h]; simp
  | ok next =>
    simp only at h
    split at h
    · split at h
      · cases h
      · split at h <;> (simp only [Round.stop.injEq] at h; rw [← h]; simp)
    · split at h
      · simp only [Round.stop.injEq] at h; rw [← h]; simp
      · split at h
        · cases h
        · simp only [Round.stop.injEq] at h; rw [← h]; simp

theorem fill_cons_of_stop (L : Lib T V A E) (decode : R → Except E A × R) (f : Field T V)
    (fs : List (Field T V)) (r : R) (o : Outcome E)
    (h : round L f (decode r).1 = Round.stop o) :
    fill L decode (f :: fs) r = (o, ⟨f :: fs, (decode r).2, 1⟩) := by
  simp [fill, h]

theorem fill_cons_of_next (L : Lib T V A E) (decode : R → Except E A × R) (f : Field T V)
    (fs : List (Field T V)) (r : R) (g : Field T V)
    (h : round L f (decode r).1 = Round.next g) :
    fill L decode (f :: fs) r = afterField g (fill L decode fs (decode r).2) := by
  simp [fill, h]

theorem round_of_error (L : Lib T V A E) (f : Field T V) (e : E) :
    round L f (Except.error e : Except E A) = Round.stop (Outcome.err e) := rfl

theorem round_of_skip (L : Lib T V A E) (f : Field T V) (x : A)
    (hb : isBodyless L x = true) (hn : canAssignNil L f = true) :
    round L f (Except.ok x : Except E A) = Round.next f := by
  simp [round, hb, hn]

theorem round_of_nilError (L : Lib T V A E) (f : Field T V) (x : A)
    (hb : isBodyless L x = true) (hn : canAssignNil L f = false)
    (hi : L.CanInterface f.typ = true) :
    round L f (Except.ok x : Except E A) =
      Round.stop (Outcome.err
        (L.Errorf ("amf0: unable to assign nil to type " ++ L.TypeString f.typ))) := by
  simp [round, hb, hn, nilError, hi]

theorem round_of_nilError_panic (L : Lib T V A E) (f : Field T V) (x : A)
    (hb : isBodyless L x = true) (hn : canAssignNil L f = false)
    (hi : L.CanInterface f.typ = false) :
    round L f (Except.ok x : Except E A) = Round.stop Outcome.panic := by
  simp [round, hb, hn, nilError, hi]

theorem round_of_panic (L : Lib T V A E) (f : Field T V) (x : A)
    (hb : isBodyless L x = false) (hc : converted L f x = none) :
    round L f (Except.ok x : Except E A) = Round.stop Outcome.panic := by
  simp [round, hb, hc]

theorem round_of_assign (L : Lib T V A E) (f : Field T V) (x : A) (c : V)
    (hb : isBodyless L x = false) (hc : converted L f x = some c)
    (hs : L.CanSet f.typ = true) :
    round L f (Except.ok x : Except E A) = Round.next ⟨f.typ, c⟩ := by
  simp [round, hb, hc, hs]

theorem round_of_set_panic (L : Lib T V A E) (f : Field T V) (x : A) (c : V)
    (hb : isBodyless L x = false) (hc : converted L f x = some c)
    (hs : L.CanSet f.typ = false) :
    round L f (Except.ok x : Except E A) = Round.stop Outcome.panic := by
  simp [round, hb, hc, hs]

/-- A round that stops with an error: the decoder's, or the error of lines 55-57. -/
theorem round_err_cases (L : Lib T V A E) (f : Field T V) (d : Except E A) (e : E)
    (h : round L f d = Round.stop (Outcome.err e)) :
    d = Except.error e ∨
      ∃ x, d = Except.ok x ∧ isBodyless L x = true ∧ canAssignNil L f = false ∧
        e = L.Errorf ("amf0: unable to assign nil to type " ++ L.TypeString f.typ) := by
  cases d with
  | error e' =>
    left
    rw [round_of_error] at h
    simp only [Round.stop.injEq, Outcome.err.injEq] at h
    rw [h]
  | ok x =>
    right
    refine ⟨x, rfl, ?_⟩
    cases hb : isBodyless L x with
    | true =>
      cases hn : canAssignNil L f with
      | true => rw [round_of_skip L f x hb hn] at h; cases h
      | false =>
        cases hi : L.CanInterface f.typ with
        | true =>
          rw [round_of_nilError L f x hb hn hi] at h
          simp only [Round.stop.injEq, Outcome.err.injEq] at h
          exact ⟨rfl, rfl, h.symm⟩
        | false => rw [round_of_nilError_panic L f x hb hn hi] at h; cases h
    | false =>
      cases hc : converted L f x with
      | none => rw [round_of_panic L f x hb hc] at h; cases h
      | some c =>
        cases hs : L.CanSet f.typ with
        | true => rw [round_of_assign L f x c hb hc hs] at h; cases h
        | false => rw [round_of_set_panic L f x c hb hc hs] at h; cases h

/-- A round depends on the declaration of the field only, not on what the field holds. -/
theorem round_schema (L : Lib T V A E) (f g : Field T V) (d : Except E A)
    (ht : f.typ = g.typ) :
    (∀ o, round L f d = Round.stop o → round L g d = Round.stop o) ∧
      (∀ f', round L f d = Round.next f' →
        ∃ g', round L g d = Round.next g' ∧ f'.typ = g'.typ) := by
  have hn : canAssignNil L g = canAssignNil L f := by simp [canAssignNil, ht]
  have hcv : ∀ x, converted L g x = converted L f x := by
    intro x; simp [converted, reduce, hn, ht]
  have he : nilError L g = nilError L f := by simp [nilError, ht]
  cases d with
  | error e => exact ⟨fun o h => (by simpa [round] using h), fun f' h => (by simp [round] at h)⟩
  | ok x =>
    cases hb : isBodyless L x with
    | true =>
      cases hc : canAssignNil L f with
      | true =>
        rw [round_of_skip L f x hb hc, round_of_skip L g x hb (by rw [hn, hc])]
        exact ⟨fun o h => (by cases h), fun f' h => ⟨g, rfl, (by cases h; exact ht)⟩⟩
      | false =>
        have hf : round L f (Except.ok x : Except E A) =
            (match nilError L f with
              | some e => Round.stop (Outcome.err e)
              | none => Round.stop Outcome.panic) := by
          simp [round, hb, hc]
        have hg : round L g (Except.ok x : Except E A) =
            (match nilError L f with
              | some e => Round.stop (Outcome.err e)
              | none => Round.stop Outcome.panic) := by
          simp [round, hb, hn, hc, he]
        rw [hf, hg]
        refine ⟨fun o h => h, fun f' h => ?_⟩
        cases hne : nilError L f <;> rw [hne] at h <;> cases h
    | false =>
      cases hc : converted L f x with
      | none =>
        rw [round_of_panic L f x hb hc, round_of_panic L g x hb (by rw [hcv, hc])]
        exact ⟨fun o h => h, fun f' h => (by cases h)⟩
      | some c =>
        cases hs : L.CanSet f.typ with
        | true =>
          rw [round_of_assign L f x c hb hc hs,
            round_of_assign L g x c hb (by rw [hcv, hc]) (by rw [← ht, hs])]
          exact ⟨fun o h => (by cases h), fun f' h => ⟨_, rfl, (by cases h; exact ht)⟩⟩
        | false =>
          rw [round_of_set_panic L f x c hb hc hs,
            round_of_set_panic L g x c hb (by rw [hcv, hc]) (by rw [← ht, hs])]
          exact ⟨fun o h => h, fun f' h => (by cases h)⟩

/-! ### The loop and the recursion over the fields -/

theorem loop_eq_fill (L : Lib T V A E) (decode : R → Except E A × R) :
    ∀ (rest pre : List (Field T V)) (r : R) (c : Nat),
      loop L decode rest.length pre.length ⟨pre ++ rest, r, c⟩ =
        ((fill L decode rest r).1,
          ⟨pre ++ (fill L decode rest r).2.v, (fill L decode rest r).2.r,
            c + (fill L decode rest r).2.calls⟩) := by
  intro rest
  induction rest with
  | nil => intro pre r c; simp [loop, fill]
  | cons f fs ih =>
    intro pre r c
    have hget : (pre ++ f :: fs)[pre.length]? = some f := by
      rw [List.getElem?_append_right (Nat.le_refl _)]; simp
    have hstep : ∀ g : Field T V, ∀ r' : R, ∀ c' : Nat,
        loop L decode fs.length (pre.length + 1) ⟨pre ++ g :: fs, r', c'⟩ =
          ((fill L decode fs r').1,
            ⟨pre ++ g :: (fill L decode fs r').2.v, (fill L decode fs r').2.r,
              c' + (fill L decode fs r').2.calls⟩) := by
      intro g r' c'
      have := ih (pre ++ [g]) r' c'
      simpa using this
    simp only [List.length_cons, loop, body, hget, fill, round]
    cases hd : (decode r).1 with
    | error e => simp
    | ok next =>
      by_cases hb : isBodyless L next = true
      · by_cases hn : canAssignNil L f = true
        · simp [hb, hn, hstep, afterField]; omega
        · cases hne : nilError L f with
          | none => simp [hb, hn, hne]
          | some e => simp [hb, hn, hne]
      · cases hc : converted L f next with
        | none => simp [hb, assign, hc]
        | some cv =>
          by_cases hs : L.CanSet f.typ = true
          · simp [hb, assign, hc, hs, hstep, afterField]; omega
          · simp [hb, assign, hc, hs]

theorem Unmarshal_eq_fill (L : Lib T V A E) (decode : R → Except E A × R)
    (dest : List (Field T V)) (r : R) :
    Unmarshal L decode dest r = fill L decode dest r := by
  have h := loop_eq_fill L decode dest [] r 0
  simp only [List.length_nil, List.nil_append, Nat.zero_add] at h
  rw [Unmarshal, h]

theorem readerAt_zero (decode : R → Except E A × R) (r : R) : readerAt decode r 0 = r := rfl

theorem readerAt_succ (decode : R → Except E A × R) (r : R) (i : Nat) :
    readerAt decode r (i + 1) = readerAt decode (decode r).2 i := rfl

theorem readerAt_succ_last (decode : R → Except E A × R) (r : R) (i : Nat) :
    readerAt decode r (i + 1) = (decode (readerAt decode r i)).2 := by
  simp only [readerAt]
  exact Function.iterate_succ_apply' _ _ _

theorem decoded_zero (decode : R → Except E A × R) (r : R) :
    decoded decode r 0 = (decode r).1 := rfl

theorem decoded_succ (decode : R → Except E A × R) (r : R) (i : Nat) :
    decoded decode r (i + 1) = decoded decode (decode r).2 i := rfl

theorem fill_length (L : Lib T V A E) (decode : R → Except E A × R) :
    ∀ (l : List (Field T V)) (r : R), (fill L decode l r).2.v.length = l.length := by
  intro l
  induction l with
  | nil => intro r; simp [fill]
  | cons f fs ih =>
    intro r
    cases hr : round L f (decode r).1 with
    | stop o => rw [fill_cons_of_stop L decode f fs r o hr]
    | next g => rw [fill_cons_of_next L decode f fs r g hr]; simp [afterField, ih]

theorem fill_reader (L : Lib T V A E) (decode : R → Except E A × R) :
    ∀ (l : List (Field T V)) (r : R),
      (fill L decode l r).2.r = readerAt decode r (fill L decode l r).2.calls := by
  intro l
  induction l with
  | nil => intro r; simp [fill, readerAt]
  | cons f fs ih =>
    intro r
    cases hr : round L f (decode r).1 with
    | stop o => rw [fill_cons_of_stop L decode f fs r o hr]; simp [readerAt]
    | next g =>
      rw [fill_cons_of_next L decode f fs r g hr]
      simp only [afterField, readerAt_succ]
      exact ih _

theorem fill_calls_of_nil (L : Lib T V A E) (decode : R → Except E A × R) :
    ∀ (l : List (Field T V)) (r : R), (fill L decode l r).1 = Outcome.nil →
      (fill L decode l r).2.calls = l.length := by
  intro l
  induction l with
  | nil => intro r _; simp [fill]
  | cons f fs ih =>
    intro r
    cases hr : round L f (decode r).1 with
    | stop o =>
      rw [fill_cons_of_stop L decode f fs r o hr]
      intro h
      exact absurd h (round_stop_ne_nil L f _ o hr)
    | next g =>
      rw [fill_cons_of_next L decode f fs r g hr]
      intro h
      simp only [afterField, List.length_cons, Nat.add_right_cancel_iff]
      exact ih _ h

theorem fill_calls_pos (L : Lib T V A E) (decode : R → Except E A × R) (f : Field T V)
    (fs : List (Field T V)) (r : R) : 1 ≤ (fill L decode (f :: fs) r).2.calls := by
  cases hr : round L f (decode r).1 with
  | stop o => rw [fill_cons_of_stop L decode f fs r o hr]
  | next g => rw [fill_cons_of_next L decode f fs r g hr]; simp [afterField]

theorem fill_append_of_nil (L : Lib T V A E) (decode : R → Except E A × R)
    (l₂ : List (Field T V)) :
    ∀ (l₁ : List (Field T V)) (r : R), (fill L decode l₁ r).1 = Outcome.nil →
      fill L decode (l₁ ++ l₂) r =
        andThen (fill L decode l₁ r) (fill L decode l₂ (fill L decode l₁ r).2.r) := by
  intro l₁
  induction l₁ with
  | nil => intro r _; simp [fill, andThen]
  | cons f fs ih =>
    intro r
    rw [List.cons_append]
    cases hr : round L f (decode r).1 with
    | stop o =>
      rw [fill_cons_of_stop L decode f fs r o hr]
      intro h
      exact absurd h (round_stop_ne_nil L f _ o hr)
    | next g =>
      rw [fill_cons_of_next L decode f fs r g hr, fill_cons_of_next L decode f _ r g hr]
      intro h
      rw [ih _ h]
      simp [afterField, andThen]; omega

theorem fill_append_of_stop (L : Lib T V A E) (decode : R → Except E A × R)
    (l₂ : List (Field T V)) :
    ∀ (l₁ : List (Field T V)) (r : R), (fill L decode l₁ r).1 ≠ Outcome.nil →
      fill L decode (l₁ ++ l₂) r =
        ((fill L decode l₁ r).1,
          ⟨(fill L decode l₁ r).2.v ++ l₂, (fill L decode l₁ r).2.r,
            (fill L decode l₁ r).2.calls⟩) := by
  intro l₁
  induction l₁ with
  | nil => intro r h; simp [fill] at h
  | cons f fs ih =>
    intro r
    rw [List.cons_append]
    cases hr : round L f (decode r).1 with
    | stop o =>
      rw [fill_cons_of_stop L decode f fs r o hr, fill_cons_of_stop L decode f _ r o hr]
      intro _
      simp
    | next g =>
      rw [fill_cons_of_next L decode f fs r g hr, fill_cons_of_next L decode f _ r g hr]
      intro h
      rw [ih _ h]
      simp [afterField]

/-! ### Runs on the first fields of the destination -/

theorem take_succ_of_getElem? {α : Type} (l : List α) (i : Nat) (a : α) (h : l[i]? = some a) :
    l.take (i + 1) = l.take i ++ [a] := by
  rw [List.take_succ, h]; rfl

theorem length_take_of_getElem? {α : Type} (l : List α) (i : Nat) (a : α)
    (h : l[i]? = some a) : (l.take i).length = i := by
  obtain ⟨hlt, -⟩ := List.getElem?_eq_some.1 h
  rw [List.length_take]; omega

theorem fill_take_reader (L : Lib T V A E) (decode : R → Except E A × R)
    (dest : List (Field T V)) (r : R) (i : Nat) (f : Field T V) (hf : dest[i]? = some f)
    (hpre : (fill L decode (dest.take i) r).1 = Outcome.nil) :
    (fill L decode (dest.take i) r).2.r = readerAt decode r i ∧
      (fill L decode (dest.take i) r).2.calls = i ∧
      (fill L decode (dest.take i) r).2.v.length = i := by
  have hc := fill_calls_of_nil L decode _ r hpre
  rw [length_take_of_getElem? dest i f hf] at hc
  refine ⟨?_, hc, ?_⟩
  · rw [fill_reader, hc]
  · rw [fill_length, length_take_of_getElem? dest i f hf]

theorem fill_take_succ (L : Lib T V A E) (decode : R → Except E A × R)
    (dest : List (Field T V)) (r : R) (i : Nat) (f : Field T V) (hf : dest[i]? = some f)
    (hpre : (fill L decode (dest.take i) r).1 = Outcome.nil) :
    fill L decode (dest.take (i + 1)) r =
      andThen (fill L decode (dest.take i) r) (fill L decode [f] (readerAt decode r i)) := by
  rw [take_succ_of_getElem? dest i f hf, fill_append_of_nil L decode [f] _ r hpre,
    (fill_take_reader L decode dest r i f hf hpre).1]

/-- A run on one field that does not end with `return nil` leaves the field as it was. -/
theorem fill_single_of_stop (L : Lib T V A E) (decode : R → Except E A × R) (f : Field T V)
    (r : R) (h : (fill L decode [f] r).1 ≠ Outcome.nil) :
    (fill L decode [f] r).2 = ⟨[f], (decode r).2, 1⟩ := by
  cases hr : round L f (decode r).1 with
  | stop o => rw [fill_cons_of_stop L decode f [] r o hr]
  | next g =>
    rw [fill_cons_of_next L decode f [] r g hr] at h
    simp [afterField, fill] at h

/-- A run on one field that ends with `return nil` has made one call. -/
theorem fill_single_of_nil (L : Lib T V A E) (decode : R → Except E A × R) (f : Field T V)
    (r : R) (h : (fill L decode [f] r).1 = Outcome.nil) :
    ∃ g, (fill L decode [f] r).2 = ⟨[g], (decode r).2, 1⟩ := by
  cases hr : round L f (decode r).1 with
  | stop o =>
    rw [fill_cons_of_stop L decode f [] r o hr] at h
    exact absurd h (round_stop_ne_nil L f _ o hr)
  | next g =>
    rw [fill_cons_of_next L decode f [] r g hr]
    exact ⟨g, by simp [afterField, fill]⟩

/-- When the first `i` fields are filled and the run on the first `i + 1` fields stops, the
run on all fields stops the same way, with the fields from `i` on as they were. -/
theorem fill_of_stop_at (L : Lib T V A E) (decode : R → Except E A × R)
    (dest : List (Field T V)) (r : R) (i : Nat) (f : Field T V) (hf : dest[i]? = some f)
    (hpre : (fill L decode (dest.take i) r).1 = Outcome.nil)
    (hstop : (fill L decode (dest.take (i + 1)) r).1 ≠ Outcome.nil) :
    fill L decode dest r =
      ((fill L decode (dest.take (i + 1)) r).1,
        ⟨(fill L decode (dest.take i) r).2.v ++ dest.drop i, readerAt decode r (i + 1),
          i + 1⟩) := by
  have hsplit := fill_append_of_stop L decode (dest.drop (i + 1)) _ r hstop
  rw [List.take_append_drop] at hsplit
  rw [hsplit]
  have hs := fill_take_succ L decode dest r i f hf hpre
  have hone : (fill L decode [f] (readerAt decode r i)).1 ≠ Outcome.nil := by
    intro h; apply hstop; rw [hs]; exact h
  have hsingle := fill_single_of_stop L decode f _ hone
  obtain ⟨-, hcalls, -⟩ := fill_take_reader L decode dest r i f hf hpre
  obtain ⟨hlt, hget⟩ := List.getElem?_eq_some.1 hf
  have hdrop : dest.drop i = f :: dest.drop (i + 1) := by
    rw [List.drop_eq_getElem_cons hlt, hget]
  rw [hs]
  simp [andThen, hsingle, hcalls, hdrop, readerAt_succ_last]

/-- The outcome of the run on the first `i + 1` fields is that of the run on field `i`. -/
theorem fill_take_succ_outcome (L : Lib T V A E) (decode : R → Except E A × R)
    (dest : List (Field T V)) (r : R) (i : Nat) (f : Field T V) (hf : dest[i]? = some f)
    (hpre : (fill L decode (dest.take i) r).1 = Outcome.nil) :
    (fill L decode (dest.take (i + 1)) r).1 = (fill L decode [f] (readerAt decode r i)).1 := by
  rw [fill_take_succ L decode dest r i f hf hpre]; rfl

/-- When the first `i + 1` fields are filled, the run on all fields goes on behind them. -/
theorem fill_of_nil_at (L : Lib T V A E) (decode : R → Except E A × R)
    (dest : List (Field T V)) (r : R) (i : Nat) (f : Field T V) (hf : dest[i]? = some f)
    (hpre : (fill L decode (dest.take i) r).1 = Outcome.nil)
    (hnil : (fill L decode (dest.take (i + 1)) r).1 = Outcome.nil) :
    ∃ g, (fill L decode [f] (readerAt decode r i)).2.v = [g] ∧
      fill L decode dest r =
        ((fill L decode (dest.drop (i + 1)) (readerAt decode r (i + 1))).1,
          ⟨(fill L decode (dest.take i) r).2.v ++
              g :: (fill L decode (dest.drop (i + 1)) (readerAt decode r (i + 1))).2.v,
            (fill L decode (dest.drop (i + 1)) (readerAt decode r (i + 1))).2.r,
            i + 1 + (fill L decode (dest.drop (i + 1)) (readerAt decode r (i + 1))).2.calls⟩) := by
  have hsplit := fill_append_of_nil L decode (dest.drop (i + 1)) _ r hnil
  rw [List.take_append_drop] at hsplit
  have hs := fill_take_succ L decode dest r i f hf hpre
  have hone : (fill L decode [f] (readerAt decode r i)).1 = Outcome.nil := by
    rw [← fill_take_succ_outcome L decode dest r i f hf hpre]; exact hnil
  obtain ⟨g, hg⟩ := fill_single_of_nil L decode f _ hone
  obtain ⟨-, hcalls, -⟩ := fill_take_reader L decode dest r i f hf hpre
  refine ⟨g, by rw [hg], ?_⟩
  rw [hsplit, hs]
  simp [andThen, hg, hcalls, readerAt_succ_last]

/-! ### One round of the loop, on the first field still to fill -/

theorem fill_cons_of_error (L : Lib T V A E) (decode : R → Except E A × R) (f : Field T V)
    (fs : List (Field T V)) (r : R) (e : E) (hd : (decode r).1 = Except.error e) :
    fill L decode (f :: fs) r = (Outcome.err e, ⟨f :: fs, (decode r).2, 1⟩) :=
  fill_cons_of_stop L decode f fs r _ (by rw [hd, round_of_error])

theorem fill_cons_of_skip (L : Lib T V A E) (decode : R → Except E A × R) (f : Field T V)
    (fs : List (Field T V)) (r : R) (x : A) (hd : (decode r).1 = Except.ok x)
    (hb : isBodyless L x = true) (hn : canAssignNil L f = true) :
    fill L decode (f :: fs) r = afterField f (fill L decode fs (decode r).2) :=
  fill_cons_of_next L decode f fs r _ (by rw [hd, round_of_skip L f x hb hn])

theorem fill_cons_of_nilError (L : Lib T V A E) (decode : R → Except E A × R) (f : Field T V)
    (fs : List (Field T V)) (r : R) (x : A) (hd : (decode r).1 = Except.ok x)
    (hb : isBodyless L x = true) (hn : canAssignNil L f = false)
    (hi : L.CanInterface f.typ = true) :
    fill L decode (f :: fs) r =
      (Outcome.err (L.Errorf ("amf0: unable to assign nil to type " ++ L.TypeString f.typ)),
        ⟨f :: fs, (decode r).2, 1⟩) :=
  fill_cons_of_stop L decode f fs r _ (by rw [hd, round_of_nilError L f x hb hn hi])

theorem fill_cons_of_nilError_panic (L : Lib T V A E) (decode : R → Except E A × R)
    (f : Field T V) (fs : List (Field T V)) (r : R) (x : A)
    (hd : (decode r).1 = Except.ok x)
    (hb : isBodyless L x = true) (hn : canAssignNil L f = false)
    (hi : L.CanInterface f.typ = false) :
    fill L decode (f :: fs) r = (Outcome.panic, ⟨f :: fs, (decode r).2, 1⟩) :=
  fill_cons_of_stop L decode f fs r _ (by rw [hd, round_of_nilError_panic L f x hb hn hi])

theorem fill_cons_of_panic (L : Lib T V A E) (decode : R → Except E A × R) (f : Field T V)
    (fs : List (Field T V)) (r : R) (x : A) (hd : (decode r).1 = Except.ok x)
    (hb : isBodyless L x = false) (hc : converted L f x = none) :
    fill L decode (f :: fs) r = (Outcome.panic, ⟨f :: fs, (decode r).2, 1⟩) :=
  fill_cons_of_stop L decode f fs r _ (by rw [hd, round_of_panic L f x hb hc])

theorem fill_cons_of_assign (L : Lib T V A E) (decode : R → Except E A × R) (f : Field T V)
    (fs : List (Field T V)) (r : R) (x : A) (c : V) (hd : (decode r).1 = Except.ok x)
    (hb : isBodyless L x = false) (hc : converted L f x = some c)
    (hs : L.CanSet f.typ = true) :
    fill L decode (f :: fs) r = afterField ⟨f.typ, c⟩ (fill L decode fs (decode r).2) :=
  fill_cons_of_next L decode f fs r _ (by rw [hd, round_of_assign L f x c hb hc hs])

theorem fill_cons_of_set_panic (L : Lib T V A E) (decode : R → Except E A × R)
    (f : Field T V) (fs : List (Field T V)) (r : R) (x : A) (c : V)
    (hd : (decode r).1 = Except.ok x)
    (hb : isBodyless L x = false) (hc : converted L f x = some c)
    (hs : L.CanSet f.typ = false) :
    fill L decode (f :: fs) r = (Outcome.panic, ⟨f :: fs, (decode r).2, 1⟩) :=
  fill_cons_of_stop L decode f fs r _ (by rw [hd, round_of_set_panic L f x c hb hc hs])

/-- The loop taken up at index `k`, behind `k` fields `pre` already handled. -/
theorem loop_resume (L : Lib T V A E) (decode : R → Except E A × R)
    (dest pre : List (Field T V)) (k : Nat) (hk : pre.length = k) (r : R) (c : Nat) :
    loop L decode (dest.length - k) k ⟨pre ++ dest.drop k, r, c⟩ =
      ((fill L decode (dest.drop k) r).1,
        ⟨pre ++ (fill L decode (dest.drop k) r).2.v, (fill L decode (dest.drop k) r).2.r,
          c + (fill L decode (dest.drop k) r).2.calls⟩) := by
  have h := loop_eq_fill L decode (dest.drop k) pre r c
  rw [List.length_drop, hk] at h
  exact h

/-- All fields are filled when every value is read, has a body and converts, and every
field can be set. -/
theorem fill_of_converted (L : Lib T V A E) (decode : R → Except E A × R) :
    ∀ (dest : List (Field T V)) (r : R) (x : Nat → A) (y : Nat → V),
      (∀ i, i < dest.length → decoded decode r i = Except.ok (x i)) →
      (∀ i, i < dest.length → isBodyless L (x i) = false) →
      (∀ i f, dest[i]? = some f → converted L f (x i) = some (y i)) →
      (∀ f, f ∈ dest → L.CanSet f.typ = true) →
      (fill L decode dest r).1 = Outcome.nil ∧
        ∀ (i : Nat) (f : Field T V), dest[i]? = some f →
          (fill L decode dest r).2.v[i]? = some (Field.mk f.typ (y i)) := by
  intro dest
  induction dest with
  | nil => intro r x y _ _ _ _; simp [fill]
  | cons f fs ih =>
    intro r x y hx hb hc hs
    have hd : (decode r).1 = Except.ok (x 0) := hx 0 (by simp)
    have h := fill_cons_of_assign L decode f fs r (x 0) (y 0) hd (hb 0 (by simp))
      (hc 0 f (by simp)) (hs f (by simp))
    obtain ⟨ih1, ih2⟩ := ih (decode r).2 (fun i => x (i + 1)) (fun i => y (i + 1))
      (fun i hi => hx (i + 1) (by simpa using hi))
      (fun i hi => hb (i + 1) (by simpa using hi))
      (fun i g hg => hc (i + 1) g (by simpa using hg))
      (fun g hg => hs g (by simp [hg]))
    rw [h]
    refine ⟨ih1, ?_⟩
    intro i g hg
    cases i with
    | zero =>
      have : f = g := by simpa using hg
      subst this
      simp [afterField]
    | succ j =>
      have hg' : fs[j]? = some g := by simpa using hg
      simpa [afterField] using ih2 j g hg'

theorem getElem?_append_drop {α : Type} (pre l : List α) (i j : Nat) (hlen : pre.length = i)
    (hij : i ≤ j) : (pre ++ l.drop i)[j]? = l[j]? := by
  rw [List.getElem?_append_right (by omega), List.getElem?_drop, hlen]
  congr 1; omega

/-- Skipping: the first `i` fields are filled, field `i` can hold nil and the value read for
it is bodyless. -/
theorem fill_skip_at (L : Lib T V A E) (decode : R → Except E A × R)
    (dest : List (Field T V)) (r : R) (i : Nat) (f : Field T V) (x : A)
    (hf : dest[i]? = some f) (hn : canAssignNil L f = true)
    (hpre : (fill L decode (dest.take i) r).1 = Outcome.nil)
    (hx : decoded decode r i = Except.ok x) (hb : isBodyless L x = true) :
    (fill L decode (dest.take (i + 1)) r).1 = Outcome.nil ∧
      (fill L decode dest r).2.v[i]? = some f ∧
      fill L decode dest r =
        loop L decode (dest.length - (i + 1)) (i + 1)
          ⟨(fill L decode (dest.take i) r).2.v ++ dest.drop i,
            readerAt decode r (i + 1), i + 1⟩ ∧
      (i + 1 < dest.length → i + 2 ≤ (fill L decode dest r).2.calls) := by
  have hsingle : fill L decode [f] (readerAt decode r i) =
      (Outcome.nil, ⟨[f], (decode (readerAt decode r i)).2, 1⟩) := by
    rw [fill_cons_of_skip L decode f [] _ x hx hb hn]; simp [afterField, fill]
  have hnil : (fill L decode (dest.take (i + 1)) r).1 = Outcome.nil := by
    rw [fill_take_succ_outcome L decode dest r i f hf hpre, hsingle]
  obtain ⟨g, hg, hfull⟩ := fill_of_nil_at L decode dest r i f hf hpre hnil
  have hgf : g = f := by
    rw [hsingle] at hg; simpa using hg.symm
  subst hgf
  obtain ⟨-, -, hlen⟩ := fill_take_reader L decode dest r i g hf hpre
  obtain ⟨hlt, hget⟩ := List.getElem?_eq_some.1 hf
  have hdrop : dest.drop i = g :: dest.drop (i + 1) := by
    rw [List.drop_eq_getElem_cons hlt, hget]
  refine ⟨hnil, ?_, ?_, ?_⟩
  · rw [hfull]
    simp only
    rw [List.getElem?_append_right (by omega), hlen, Nat.sub_self]
    simp
  · have hres := loop_resume L decode dest ((fill L decode (dest.take i) r).2.v ++ [g])
      (i + 1) (by simp [hlen]) (readerAt decode r (i + 1)) (i + 1)
    rw [hdrop]
    simp only [List.append_assoc, List.singleton_append] at hres
    rw [hres, hfull]
  · intro hi
    rw [hfull]
    have hne : dest.drop (i + 1) = dest[i + 1] :: dest.drop (i + 1 + 1) :=
      List.drop_eq_getElem_cons hi
    have := fill_calls_pos L decode dest[i + 1] (dest.drop (i + 1 + 1))
      (readerAt decode r (i + 1))
    rw [← hne] at this
    simp only
    omega

/-- Stopping at field `i`: the first `i` fields are filled and the run on field `i` ends with
the outcome `o`, which is not `return nil`. -/
theorem fill_stop_at (L : Lib T V A E) (decode : R → Except E A × R)
    (dest : List (Field T V)) (r : R) (i : Nat) (f : Field T V) (o : Outcome E)
    (hf : dest[i]? = some f)
    (hpre : (fill L decode (dest.take i) r).1 = Outcome.nil)
    (ho : (fill L decode [f] (readerAt decode r i)).1 = o) (hne : o ≠ Outcome.nil) :
    (fill L decode (dest.take (i + 1)) r).1 = o ∧
      (fill L decode dest r).1 = o ∧
      (fill L decode dest r).2.calls = i + 1 ∧
      (fill L decode dest r).2.r = readerAt decode r (i + 1) ∧
      (∀ j, i ≤ j → (fill L decode dest r).2.v[j]? = dest[j]?) ∧
      (∀ j, j < i → (fill L decode dest r).2.v[j]? = (fill L decode (dest.take i) r).2.v[j]?) := by
  have hstop : (fill L decode (dest.take (i + 1)) r).1 = o := by
    rw [fill_take_succ_outcome L decode dest r i f hf hpre, ho]
  have hne' : (fill L decode (dest.take (i + 1)) r).1 ≠ Outcome.nil := by
    rw [hstop]; exact hne
  obtain ⟨-, -, hlen⟩ := fill_take_reader L decode dest r i f hf hpre
  rw [fill_of_stop_at L decode dest r i f hf hpre hne', hstop]
  refine ⟨rfl, rfl, rfl, rfl, ?_, ?_⟩
  · intro j hij
    exact getElem?_append_drop _ dest i j hlen hij
  · intro j hji
    exact List.getElem?_append_left (by omega)

/-- A run that does not end with `return nil` stops at some field `i`: the first `i` fields
are filled and the run on the first `i + 1` fields ends as the whole run does. -/
theorem fill_stop_index (L : Lib T V A E) (decode : R → Except E A × R) :
    ∀ (l : List (Field T V)) (r : R), (fill L decode l r).1 ≠ Outcome.nil →
      ∃ i, i < l.length ∧ (fill L decode (l.take i) r).1 = Outcome.nil ∧
        (fill L decode (l.take (i + 1)) r).1 = (fill L decode l r).1 := by
  intro l
  induction l with
  | nil => intro r h; simp [fill] at h
  | cons f fs ih =>
    intro r hne
    cases hr : round L f (decode r).1 with
    | stop o =>
      refine ⟨0, by simp, by simp [fill], ?_⟩
      rw [fill_cons_of_stop L decode f fs r o hr]
      simp [fill_cons_of_stop L decode f [] r o hr]
    | next g =>
      rw [fill_cons_of_next L decode f fs r g hr] at hne ⊢
      obtain ⟨i, hi, h1, h2⟩ := ih (decode r).2 (by simpa [afterField] using hne)
      refine ⟨i + 1, by simpa using hi, ?_, ?_⟩
      · rw [List.take_succ_cons, fill_cons_of_next L decode f _ r g hr]
        simpa [afterField] using h1
      · rw [List.take_succ_cons, fill_cons_of_next L decode f _ r g hr]
        simpa [afterField] using h2

/-- Assigning: the first `i` fields are filled, the value read for field `i` has a body and
converts to `c`, and field `i` can be set. -/
theorem fill_assign_at (L : Lib T V A E) (decode : R → Except E A × R)
    (dest : List (Field T V)) (r : R) (i : Nat) (f : Field T V) (x : A) (c : V)
    (hf : dest[i]? = some f)
    (hpre : (fill L decode (dest.take i) r).1 = Outcome.nil)
    (hx : decoded decode r i = Except.ok x) (hb : isBodyless L x = false)
    (hc : converted L f x = some c) (hs : L.CanSet f.typ = true) :
    (fill L decode (dest.take (i + 1)) r).1 = Outcome.nil ∧
      (fill L decode dest r).2.v[i]? = some (Field.mk f.typ c) := by
  have hsingle : fill L decode [f] (readerAt decode r i) =
      (Outcome.nil, ⟨[Field.mk f.typ c], (decode (readerAt decode r i)).2, 1⟩) := by
    rw [fill_cons_of_assign L decode f [] _ x c hx hb hc hs]; simp [afterField, fill]
  have hnil : (fill L decode (dest.take (i + 1)) r).1 = Outcome.nil := by
    rw [fill_take_succ_outcome L decode dest r i f hf hpre, hsingle]
  obtain ⟨g, hg, hfull⟩ := fill_of_nil_at L decode dest r i f hf hpre hnil
  have hgf : g = Field.mk f.typ c := by
    rw [hsingle] at hg; simpa using hg.symm
  subst hgf
  obtain ⟨-, -, hlen⟩ := fill_take_reader L decode dest r i f hf hpre
  refine ⟨hnil, ?_⟩
  rw [hfull]
  simp only
  rw [List.getElem?_append_right (by omega), hlen, Nat.sub_self]
  simp

/-- Two records whose fields have the same types and hold the zero value of their type are
the same record. -/
theorem eq_of_fresh (zero : T → V) :
    ∀ (l₁ l₂ : List (Field T V)), l₁.map Field.typ = l₂.map Field.typ →
      (∀ g, g ∈ l₁ → g.val = zero g.typ) → (∀ g, g ∈ l₂ → g.val = zero g.typ) → l₁ = l₂ := by
  intro l₁
  induction l₁ with
  | nil =>
    intro l₂ hs _ _
    cases l₂ with
    | nil => rfl
    | cons g gs => simp at hs
  | cons f fs ih =>
    intro l₂ hs h1 h2
    cases l₂ with
    | nil => simp at hs
    | cons g gs =>
      simp only [List.map_cons, List.cons.injEq] at hs
      have hfg : f = g := by
        have hf := h1 f (by simp)
        have hg := h2 g (by simp)
        cases f; cases g
        simp_all
      have htl := ih gs hs.2 (fun a ha => h1 a (by simp [ha])) (fun a ha => h2 a (by simp [ha]))
      rw [hfg, htl]

/-- The outcome of a run, the calls it makes and the reader it leaves depend on the
declarations of the fields only, not on what the fields hold. -/
theorem fill_schema (L : Lib T V A E) (decode : R → Except E A × R) :
    ∀ (l₁ l₂ : List (Field T V)) (r : R), l₁.map Field.typ = l₂.map Field.typ →
      (fill L decode l₁ r).1 = (fill L decode l₂ r).1 ∧
        (fill L decode l₁ r).2.r = (fill L decode l₂ r).2.r ∧
        (fill L decode l₁ r).2.calls = (fill L decode l₂ r).2.calls ∧
        (fill L decode l₁ r).2.v.map Field.typ = (fill L decode l₂ r).2.v.map Field.typ := by
  intro l₁
  induction l₁ with
  | nil =>
    intro l₂ r hs
    cases l₂ with
    | nil => simp
    | cons g gs => simp at hs
  | cons f fs ih =>
    intro l₂ r hs
    cases l₂ with
    | nil => simp at hs
    | cons g gs =>
      simp only [List.map_cons, List.cons.injEq] at hs
      obtain ⟨ht, hs⟩ := hs
      have ih' := ih gs (decode r).2 hs
      have hsch := round_schema L f g (decode r).1 ht
      cases hr : round L f (decode r).1 with
      | stop o =>
        rw [fill_cons_of_stop L decode f fs r o hr,
          fill_cons_of_stop L decode g gs r o (hsch.1 o hr)]
        simp [ht, hs]
      | next f' =>
        obtain ⟨g', hg', ht'⟩ := hsch.2 f' hr
        rw [fill_cons_of_next L decode f fs r f' hr, fill_cons_of_next L decode g gs r g' hg']
        simp [afterField, ih'.1, ih'.2.1, ih'.2.2.1, ih'.2.2.2, ht']

end Lemmas
end Amf0

/-! ## The claims -/

namespace Amf0
section Claims
variable {T V A E R : Type}

/-- C1, as the claim states it, fails for a struct with an unexported field: for the struct of
one unexported `string` read from the string `Ann`, the value has a body and converts to the
type of the field, and `Unmarshal` does not return: the call of `Set` panics and the field is
left as it was. -/
theorem unexported_field_is_not_filled :
    decoded Go.decodeList [Go.amfStringOf "Ann"] 0 = Except.ok (Go.amfStringOf "Ann") ∧
      isBodyless Go.goLib (Go.amfStringOf "Ann") = false ∧
      reduce Go.goLib ⟨⟨Go.GoType.string, false⟩, Go.GoValue.str Go.GoType.string ""⟩
          (Go.amfStringOf "Ann") = some (Go.GoValue.str Go.GoType.amfString "Ann") ∧
      Go.goLib.Convert (Go.GoValue.str Go.GoType.amfString "Ann") ⟨Go.GoType.string, false⟩ =
        some (Go.GoValue.str Go.GoType.string "Ann") ∧
      Unmarshal Go.goLib Go.decodeList
          [⟨⟨Go.GoType.string, false⟩, Go.GoValue.str Go.GoType.string ""⟩]
          [Go.amfStringOf "Ann"] =
        (Outcome.panic,
          ⟨[⟨⟨Go.GoType.string, false⟩, Go.GoValue.str Go.GoType.string ""⟩], [], 1⟩) := by
  refine ⟨rfl, rfl, rfl, rfl, rfl⟩

/-- C1, amended. When every field of the record can be set (is exported) and each of the
first N values the decoder hands back has a body and, after the reduction of lines 63-68,
converts to the type of the field at its position, `Unmarshal` returns nil and every field
holds the converted value of its position. -/
theorem Unmarshal_fills_every_field (L : Lib T V A E) (decode : R → Except E A × R)
    (dest : List (Field T V)) (r : R) (x : Nat → A) (p y : Nat → V)
    (hset : ∀ f, f ∈ dest → L.CanSet f.typ = true)
    (hx : ∀ i, i < dest.length → decoded decode r i = Except.ok (x i))
    (hb : ∀ i, i < dest.length → isBodyless L (x i) = false)
    (hr : ∀ i f, dest[i]? = some f → reduce L f (x i) = some (p i))
    (hc : ∀ i f, dest[i]? = some f → L.Convert (p i) f.typ = some (y i)) :
    (Unmarshal L decode dest r).1 = Outcome.nil ∧
      (Unmarshal L decode dest r).2.v.length = dest.length ∧
      ∀ (i : Nat) (f : Field T V), dest[i]? = some f →
        (Unmarshal L decode dest r).2.v[i]? = some (Field.mk f.typ (y i)) := by
  rw [Unmarshal_eq_fill]
  have h := fill_of_converted L decode dest r x y hx hb
    (fun i f hf => by simp [converted, hr i f hf, hc i f hf]) hset
  exact ⟨h.1, fill_length L decode dest r, h.2⟩

/-- Witness for C1, amended: the struct of a `string` and a `*string` filled from two strings. -/
theorem Unmarshal_fills_every_field_witness :
    (Unmarshal Go.goLib Go.decodeList (Go.fresh [Go.GoType.string, Go.GoType.ptr Go.GoType.string])
        [Go.amfStringOf "Ann", Go.amfStringOf "Bob"]).1 = Outcome.nil ∧
      (Unmarshal Go.goLib Go.decodeList
        (Go.fresh [Go.GoType.string, Go.GoType.ptr Go.GoType.string])
        [Go.amfStringOf "Ann", Go.amfStringOf "Bob"]).2.v =
        [⟨⟨Go.GoType.string, true⟩, Go.GoValue.str Go.GoType.string "Ann"⟩,
          ⟨⟨Go.GoType.ptr Go.GoType.string, true⟩,
            Go.GoValue.ptrTo Go.GoType.string (Go.GoValue.str Go.GoType.string "Bob")⟩] := by
  have h := Unmarshal_fills_every_field Go.goLib Go.decodeList
    (Go.fresh [Go.GoType.string, Go.GoType.ptr Go.GoType.string])
    [Go.amfStringOf "Ann", Go.amfStringOf "Bob"]
    (fun i => if i = 0 then Go.amfStringOf "Ann" else Go.amfStringOf "Bob")
    (fun i => if i = 0 then Go.GoValue.str Go.GoType.amfString "Ann" else Go.amfStringOf "Bob")
    (fun i => if i = 0 then Go.GoValue.str Go.GoType.string "Ann"
      else Go.GoValue.ptrTo Go.GoType.string (Go.GoValue.str Go.GoType.string "Bob"))
    (by decide)
    (fun i hi => by
      have h2 : i < 2 := hi
      interval_cases i <;> rfl)
    (fun i hi => by
      have h2 : i < 2 := hi
      interval_cases i <;> rfl)
    (fun i f hf => by
      match i, hf with
      | 0, hf => cases hf; rfl
      | 1, hf => cases hf; rfl
      | n + 2, hf => cases hf)
    (fun i f hf => by
      match i, hf with
      | 0, hf => cases hf; rfl
      | 1, hf => cases hf; rfl
      | n + 2, hf => cases hf)
  exact ⟨h.1, by decide⟩

/-- C2. When the first `i` fields of a freshly initialised struct are filled, field `i` can
hold nil and the value read for it is bodyless, then no error is raised for field `i` (the run
on the first `i + 1` fields returns nil), field `i` still holds its zero value at the end, and
the run goes on with the loop at index `i + 1`, reading the next value when there is a
field `i + 1`. -/
theorem bodyless_value_skips_nil_assignable_field (L : Lib T V A E)
    (decode : R → Except E A × R) (dest : List (Field T V)) (r : R) (zero : T → V) (i : Nat)
    (f : Field T V) (x : A)
    (hfresh : ∀ g, g ∈ dest → g.val = zero g.typ)
    (hf : dest[i]? = some f) (hn : canAssignNil L f = true)
    (hpre : (Unmarshal L decode (dest.take i) r).1 = Outcome.nil)
    (hx : decoded decode r i = Except.ok x) (hb : isBodyless L x = true) :
    (Unmarshal L decode (dest.take (i + 1)) r).1 = Outcome.nil ∧
      (Unmarshal L decode dest r).2.v[i]? = some (Field.mk f.typ (zero f.typ)) ∧
      Unmarshal L decode dest r =
        loop L decode (dest.length - (i + 1)) (i + 1)
          ⟨(Unmarshal L decode (dest.take i) r).2.v ++ dest.drop i,
            readerAt decode r (i + 1), i + 1⟩ ∧
      (i + 1 < dest.length → i + 2 ≤ (Unmarshal L decode dest r).2.calls) := by
  have h := fill_skip_at L decode dest r i f x hf hn
    (by rw [← Unmarshal_eq_fill]; exact hpre) hx hb
  simp only [Unmarshal_eq_fill]
  refine ⟨h.1, ?_, h.2.2.1, h.2.2.2⟩
  rw [h.2.1]
  have hz := hfresh f (List.getElem?_mem hf)
  cases f
  simp_all

/-- Witness for C2: the struct of a `string` and a `*int` read from a string and a null; the
pointer field stays nil and no error is returned. -/
theorem bodyless_value_skips_nil_assignable_field_witness :
    (Unmarshal Go.goLib Go.decodeList (Go.fresh [Go.GoType.string, Go.GoType.ptr Go.GoType.int])
        [Go.amfStringOf "Ann", Go.amfNullValue]).1 = Outcome.nil ∧
      (Unmarshal Go.goLib Go.decodeList
        (Go.fresh [Go.GoType.string, Go.GoType.ptr Go.GoType.int])
        [Go.amfStringOf "Ann", Go.amfNullValue]).2.v[1]? =
        some ⟨⟨Go.GoType.ptr Go.GoType.int, true⟩, Go.GoValue.nilPtr Go.GoType.int⟩ := by
  have h := bodyless_value_skips_nil_assignable_field Go.goLib Go.decodeList
    (Go.fresh [Go.GoType.string, Go.GoType.ptr Go.GoType.int])
    [Go.amfStringOf "Ann", Go.amfNullValue] (fun d => d.type.zero) 1
    ⟨⟨Go.GoType.ptr Go.GoType.int, true⟩, Go.GoValue.nilPtr Go.GoType.int⟩ Go.amfNullValue
    (by decide) rfl rfl rfl rfl rfl
  exact ⟨h.1, h.2.1⟩

/-- C3, as the claim states it, fails for an unexported field: for the struct of one
unexported `int` read from a null, the value is bodyless and the field cannot hold nil, and
`Unmarshal` returns no error: the call of `Interface` that builds the message panics. -/
theorem bodyless_value_on_unexported_field_panics :
    decoded Go.decodeList [Go.amfNullValue] 0 = Except.ok Go.amfNullValue ∧
      isBodyless Go.goLib Go.amfNullValue = true ∧
      canAssignNil Go.goLib ⟨⟨Go.GoType.int, false⟩, Go.GoValue.int 0⟩ = false ∧
      (Unmarshal Go.goLib Go.decodeList [⟨⟨Go.GoType.int, false⟩, Go.GoValue.int 0⟩]
        [Go.amfNullValue]).1 = Outcome.panic ∧
      ¬ ∃ e, (Unmarshal Go.goLib Go.decodeList [⟨⟨Go.GoType.int, false⟩, Go.GoValue.int 0⟩]
        [Go.amfNullValue]).1 = Outcome.err e := by
  refine ⟨rfl, rfl, rfl, rfl, ?_⟩
  rintro ⟨e, he⟩
  have hp : (Unmarshal Go.goLib Go.decodeList [⟨⟨Go.GoType.int, false⟩, Go.GoValue.int 0⟩]
      [Go.amfNullValue]).1 = Outcome.panic := rfl
  rw [hp] at he
  cases he

/-- C3, amended. When the first `i` fields are filled and the value read for field `i` is
bodyless: if field `i` cannot hold nil, `Unmarshal` does not return nil, and when the field is
exported (`Interface` does not panic on it) it returns the error of lines 55-57; and the value
is passed without an error (the run on the first `i + 1` fields returns nil) only when field
`i` can hold nil. -/
theorem bodyless_value_on_other_field_is_error (L : Lib T V A E)
    (decode : R → Except E A × R) (dest : List (Field T V)) (r : R) (i : Nat)
    (f : Field T V) (x : A)
    (hf : dest[i]? = some f)
    (hpre : (Unmarshal L decode (dest.take i) r).1 = Outcome.nil)
    (hx : decoded decode r i = Except.ok x) (hb : isBodyless L x = true) :
    (canAssignNil L f = false →
        (Unmarshal L decode dest r).1 ≠ Outcome.nil ∧
          (L.CanInterface f.typ = true →
            (Unmarshal L decode dest r).1 =
              Outcome.err
                (L.Errorf ("amf0: unable to assign nil to type " ++ L.TypeString f.typ)))) ∧
      ((Unmarshal L decode (dest.take (i + 1)) r).1 = Outcome.nil →
        canAssignNil L f = true) := by
  simp only [Unmarshal_eq_fill] at hpre ⊢
  have hstop : canAssignNil L f = false →
      ∃ o, o ≠ Outcome.nil ∧ (fill L decode [f] (readerAt decode r i)).1 = o := by
    intro hn
    cases hi : L.CanInterface f.typ with
    | true =>
      exact ⟨Outcome.err
          (L.Errorf ("amf0: unable to assign nil to type " ++ L.TypeString f.typ)),
        by simp, by rw [fill_cons_of_nilError L decode f [] _ x hx hb hn hi]⟩
    | false =>
      exact ⟨Outcome.panic, by simp,
        by rw [fill_cons_of_nilError_panic L decode f [] _ x hx hb hn hi]⟩
  constructor
  · intro hn
    obtain ⟨o, hne, ho⟩ := hstop hn
    have h := fill_stop_at L decode dest r i f o hf hpre ho hne
    refine ⟨by rw [h.2.1]; exact hne, ?_⟩
    intro hi
    have ho' : (fill L decode [f] (readerAt decode r i)).1 =
        Outcome.err (L.Errorf ("amf0: unable to assign nil to type " ++ L.TypeString f.typ)) := by
      rw [fill_cons_of_nilError L decode f [] _ x hx hb hn hi]
    exact (fill_stop_at L decode dest r i f _ hf hpre ho' (by simp)).2.1
  · intro hnil
    cases hn : canAssignNil L f with
    | true => rfl
    | false =>
      obtain ⟨o, hne, ho⟩ := hstop hn
      rw [fill_take_succ_outcome L decode dest r i f hf hpre, ho] at hnil
      exact absurd hnil hne

/-- Witness for C3, amended: the struct of a `string` and an `int` read from a string and a null fails
with the error for the `int` field. -/
theorem bodyless_value_on_other_field_is_error_witness :
    (Unmarshal Go.goLib Go.decodeList (Go.fresh [Go.GoType.string, Go.GoType.int])
        [Go.amfStringOf "Ann", Go.amfNullValue]).1 =
      Outcome.err "amf0: unable to assign nil to type int" :=
  ((bodyless_value_on_other_field_is_error Go.goLib Go.decodeList
    (Go.fresh [Go.GoType.string, Go.GoType.int])
    [Go.amfStringOf "Ann", Go.amfNullValue] 1
    ⟨⟨Go.GoType.int, true⟩, Go.GoValue.int 0⟩ Go.amfNullValue rfl rfl rfl rfl).1 rfl).2 rfl

/-- C4. When the first `i` fields are filled and the call of the decoder for field `i`
returns the error `e`, `Unmarshal` returns `e` itself, and that call is its last call of the
decoder: it has made `i + 1` calls and leaves the reader as that call left it. -/
theorem decoder_error_is_returned_unchanged (L : Lib T V A E)
    (decode : R → Except E A × R) (dest : List (Field T V)) (r : R) (i : Nat) (e : E)
    (hi : i < dest.length)
    (hpre : (Unmarshal L decode (dest.take i) r).1 = Outcome.nil)
    (he : decoded decode r i = Except.error e) :
    (Unmarshal L decode dest r).1 = Outcome.err e ∧
      (Unmarshal L decode dest r).2.calls = i + 1 ∧
      (Unmarshal L decode dest r).2.r = readerAt decode r (i + 1) := by
  simp only [Unmarshal_eq_fill] at hpre ⊢
  have hf : dest[i]? = some dest[i] := List.getElem?_eq_getElem hi
  have hstop : (fill L decode (dest.take (i + 1)) r).1 = Outcome.err e := by
    rw [fill_take_succ_outcome L decode dest r i _ hf hpre,
      fill_cons_of_error L decode _ [] _ e he]
  have hne : (fill L decode (dest.take (i + 1)) r).1 ≠ Outcome.nil := by
    rw [hstop]; simp
  rw [fill_of_stop_at L decode dest r i _ hf hpre hne, hstop]
  simp

/-- Witness for C4: a struct of three fields read from a stream that ends after one value;
the decoder's `EOF` is returned after two calls. -/
theorem decoder_error_is_returned_unchanged_witness :
    (Unmarshal Go.goLib Go.decodeList
        (Go.fresh [Go.GoType.string, Go.GoType.string, Go.GoType.int])
        [Go.amfStringOf "Ann"]).1 = Outcome.err "EOF" ∧
      (Unmarshal Go.goLib Go.decodeList
        (Go.fresh [Go.GoType.string, Go.GoType.string, Go.GoType.int])
        [Go.amfStringOf "Ann"]).2.calls = 2 ∧
      (Unmarshal Go.goLib Go.decodeList
        (Go.fresh [Go.GoType.string, Go.GoType.string, Go.GoType.int])
        [Go.amfStringOf "Ann"]).2.r = [] :=
  decoder_error_is_returned_unchanged Go.goLib Go.decodeList
    (Go.fresh [Go.GoType.string, Go.GoType.string, Go.GoType.int])
    [Go.amfStringOf "Ann"] 1 "EOF" (by decide) rfl rfl

/-- C5, as the claim states it, fails: for the struct of one `int` read from the string
`oops`, the value has a body and its reduced payload does not convert to `int`, and
`Unmarshal` returns no error at all: the call of `Convert` panics. -/
theorem conversion_failure_returns_no_error :
    decoded Go.decodeList [Go.amfStringOf "oops"] 0 = Except.ok (Go.amfStringOf "oops") ∧
      isBodyless Go.goLib (Go.amfStringOf "oops") = false ∧
      reduce Go.goLib ⟨⟨Go.GoType.int, true⟩, Go.GoValue.int 0⟩ (Go.amfStringOf "oops") =
        some (Go.GoValue.str Go.GoType.amfString "oops") ∧
      Go.goLib.Convert (Go.GoValue.str Go.GoType.amfString "oops") ⟨Go.GoType.int, true⟩ = none ∧
      (Unmarshal Go.goLib Go.decodeList (Go.fresh [Go.GoType.int])
        [Go.amfStringOf "oops"]).1 = Outcome.panic ∧
      ¬ ∃ e, (Unmarshal Go.goLib Go.decodeList (Go.fresh [Go.GoType.int])
        [Go.amfStringOf "oops"]).1 = Outcome.err e := by
  refine ⟨rfl, rfl, rfl, rfl, rfl, ?_⟩
  rintro ⟨e, he⟩
  have hp : (Unmarshal Go.goLib Go.decodeList (Go.fresh [Go.GoType.int])
      [Go.amfStringOf "oops"]).1 = Outcome.panic := rfl
  rw [hp] at he
  cases he

/-- C5, amended. When the first `i` fields are filled, the value read for field `i` has a
body and its reduced payload does not convert to the type of field `i`, `Unmarshal` does not
return: it panics, no error value is handed to the caller, and every field from index `i` on
is as it was before the call. -/
theorem conversion_failure_panics (L : Lib T V A E)
    (decode : R → Except E A × R) (dest : List (Field T V)) (r : R) (i : Nat)
    (f : Field T V) (x : A) (p : V)
    (hf : dest[i]? = some f)
    (hpre : (Unmarshal L decode (dest.take i) r).1 = Outcome.nil)
    (hx : decoded decode r i = Except.ok x) (hb : isBodyless L x = false)
    (hr : reduce L f x = some p) (hc : L.Convert p f.typ = none) :
    (Unmarshal L decode dest r).1 = Outcome.panic ∧
      (∀ e, (Unmarshal L decode dest r).1 ≠ Outcome.err e) ∧
      ∀ j, i ≤ j → (Unmarshal L decode dest r).2.v[j]? = dest[j]? := by
  simp only [Unmarshal_eq_fill] at hpre ⊢
  have hconv : converted L f x = none := by simp [converted, hr, hc]
  have ho : (fill L decode [f] (readerAt decode r i)).1 = Outcome.panic := by
    rw [fill_cons_of_panic L decode f [] _ x hx hb hconv]
  have h := fill_stop_at L decode dest r i f Outcome.panic hf hpre ho (by simp)
  refine ⟨h.2.1, ?_, h.2.2.2.2.1⟩
  intro e he
  rw [h.2.1] at he
  cases he

/-- Witness for C5, amended: the struct of one `int` read from the string `oops`. -/
theorem conversion_failure_panics_witness :
    (Unmarshal Go.goLib Go.decodeList (Go.fresh [Go.GoType.int])
        [Go.amfStringOf "oops"]).1 = Outcome.panic ∧
      (Unmarshal Go.goLib Go.decodeList (Go.fresh [Go.GoType.int])
        [Go.amfStringOf "oops"]).2.v[0]? = some ⟨⟨Go.GoType.int, true⟩, Go.GoValue.int 0⟩ := by
  have h := conversion_failure_panics Go.goLib Go.decodeList (Go.fresh [Go.GoType.int])
    [Go.amfStringOf "oops"] 0 ⟨⟨Go.GoType.int, true⟩, Go.GoValue.int 0⟩ (Go.amfStringOf "oops")
    (Go.GoValue.str Go.GoType.amfString "oops") rfl rfl rfl rfl rfl rfl
  exact ⟨h.1, h.2.2 0 (Nat.le_refl 0)⟩

/-- C6. When `Unmarshal` returns the error `e` while it handles field `i` (the run on the
first `i` fields returns nil, the run on the first `i + 1` fields returns `e`), the run on the
whole struct returns `e`, every field from index `i` on is as it was before the call, and
every field below `i` holds what the run on the first `i` fields put there. -/
theorem error_keeps_filled_fields_and_rest (L : Lib T V A E)
    (decode : R → Except E A × R) (dest : List (Field T V)) (r : R) (i : Nat) (e : E)
    (hpre : (Unmarshal L decode (dest.take i) r).1 = Outcome.nil)
    (herr : (Unmarshal L decode (dest.take (i + 1)) r).1 = Outcome.err e) :
    (Unmarshal L decode dest r).1 = Outcome.err e ∧
      (∀ j, i ≤ j → (Unmarshal L decode dest r).2.v[j]? = dest[j]?) ∧
      (∀ j, j < i → (Unmarshal L decode dest r).2.v[j]? =
        (Unmarshal L decode (dest.take i) r).2.v[j]?) := by
  simp only [Unmarshal_eq_fill] at hpre herr ⊢
  have hi : i < dest.length := by
    by_contra hge
    have h1 : dest.take (i + 1) = dest := List.take_of_length_le (by omega)
    have h2 : dest.take i = dest := List.take_of_length_le (by omega)
    rw [h1] at herr
    rw [h2, herr] at hpre
    cases hpre
  have hf : dest[i]? = some dest[i] := List.getElem?_eq_getElem hi
  have ho : (fill L decode [dest[i]] (readerAt decode r i)).1 = Outcome.err e := by
    rw [← fill_take_succ_outcome L decode dest r i _ hf hpre]; exact herr
  have h := fill_stop_at L decode dest r i _ (Outcome.err e) hf hpre ho (by simp)
  exact ⟨h.2.1, h.2.2.2.2.1, h.2.2.2.2.2⟩

/-- Witness for C6: the struct of two strings and an `int` read from a string and a null and
a string; the first field is filled, the other two keep their content. -/
theorem error_keeps_filled_fields_and_rest_witness :
    (Unmarshal Go.goLib Go.decodeList
        (Go.fresh [Go.GoType.string, Go.GoType.int, Go.GoType.string])
        [Go.amfStringOf "Ann", Go.amfNullValue, Go.amfStringOf "Bob"]).1 =
        Outcome.err "amf0: unable to assign nil to type int" ∧
      (Unmarshal Go.goLib Go.decodeList
        (Go.fresh [Go.GoType.string, Go.GoType.int, Go.GoType.string])
        [Go.amfStringOf "Ann", Go.amfNullValue, Go.amfStringOf "Bob"]).2.v[2]? =
        some ⟨⟨Go.GoType.string, true⟩, Go.GoValue.str Go.GoType.string ""⟩ ∧
      (Unmarshal Go.goLib Go.decodeList
        (Go.fresh [Go.GoType.string, Go.GoType.int, Go.GoType.string])
        [Go.amfStringOf "Ann", Go.amfNullValue, Go.amfStringOf "Bob"]).2.v[0]? =
        some ⟨⟨Go.GoType.string, true⟩, Go.GoValue.str Go.GoType.string "Ann"⟩ := by
  have h := error_keeps_filled_fields_and_rest Go.goLib Go.decodeList
    (Go.fresh [Go.GoType.string, Go.GoType.int, Go.GoType.string])
    [Go.amfStringOf "Ann", Go.amfNullValue, Go.amfStringOf "Bob"] 1
    "amf0: unable to assign nil to type int" rfl rfl
  exact ⟨h.1, h.2.1 2 (by decide), h.2.2 0 (by decide)⟩

/-- C7. A run of `Unmarshal` that returns nil has called the decoder once for each of the N
fields and leaves the reader as the N-th call left it; a run that returns an error while it
handles field `i` has called the decoder `i + 1` times; and every run that returns an error
does so while handling some field `i`. -/
theorem decoder_is_called_once_a_field (L : Lib T V A E)
    (decode : R → Except E A × R) (dest : List (Field T V)) (r : R) :
    ((Unmarshal L decode dest r).1 = Outcome.nil →
        (Unmarshal L decode dest r).2.calls = dest.length ∧
          (Unmarshal L decode dest r).2.r = readerAt decode r dest.length) ∧
      (∀ i e, (Unmarshal L decode (dest.take i) r).1 = Outcome.nil →
        (Unmarshal L decode (dest.take (i + 1)) r).1 = Outcome.err e →
          (Unmarshal L decode dest r).1 = Outcome.err e ∧
            (Unmarshal L decode dest r).2.calls = i + 1 ∧
            (Unmarshal L decode dest r).2.r = readerAt decode r (i + 1)) ∧
      (∀ e, (Unmarshal L decode dest r).1 = Outcome.err e →
        ∃ i, i < dest.length ∧ (Unmarshal L decode (dest.take i) r).1 = Outcome.nil ∧
          (Unmarshal L decode (dest.take (i + 1)) r).1 = Outcome.err e) := by
  simp only [Unmarshal_eq_fill]
  refine ⟨?_, ?_, ?_⟩
  · intro hnil
    have hc := fill_calls_of_nil L decode dest r hnil
    exact ⟨hc, by rw [fill_reader, hc]⟩
  · intro i e hpre herr
    have hi : i < dest.length := by
      by_contra hge
      have h1 : dest.take (i + 1) = dest := List.take_of_length_le (by omega)
      have h2 : dest.take i = dest := List.take_of_length_le (by omega)
      rw [h1] at herr
      rw [h2, herr] at hpre
      cases hpre
    have hf : dest[i]? = some dest[i] := List.getElem?_eq_getElem hi
    have ho : (fill L decode [dest[i]] (readerAt decode r i)).1 = Outcome.err e := by
      rw [← fill_take_succ_outcome L decode dest r i _ hf hpre]; exact herr
    have h := fill_stop_at L decode dest r i _ (Outcome.err e) hf hpre ho (by simp)
    exact ⟨h.2.1, h.2.2.1, h.2.2.2.1⟩
  · intro e he
    obtain ⟨i, hi, h1, h2⟩ := fill_stop_index L decode dest r (by rw [he]; simp)
    exact ⟨i, hi, h1, by rw [h2, he]⟩

/-- C8. The method `canAssignNil` answers true exactly for the fields of kind array, chan,
func, interface, map, pointer or slice; for a field of kind bool, of a numeric kind, of kind
string, struct or unsafe pointer it answers false. -/
theorem canAssignNil_iff_kind (L : Lib T V A E) (f : Field T V) :
    (canAssignNil L f = true ↔
        L.KindOf f.typ ∈ [Kind.Array, Kind.Chan, Kind.Func, Kind.Interface, Kind.Map,
          Kind.Ptr, Kind.Slice]) ∧
      (L.KindOf f.typ ∈ [Kind.Bool, Kind.Int, Kind.Int8, Kind.Int16, Kind.Int32, Kind.Int64,
          Kind.Uint, Kind.Uint8, Kind.Uint16, Kind.Uint32, Kind.Uint64, Kind.Uintptr,
          Kind.Float32, Kind.Float64, Kind.Complex64, Kind.Complex128, Kind.String,
          Kind.Struct, Kind.UnsafePointer] →
        canAssignNil L f = false) := by
  cases h : L.KindOf f.typ <;> simp [canAssignNil, h]

/-- C9. The method `isBodyless` answers true exactly when the value implements
`amf0.Bodyless` and its `IsBodyless` answers true. A value that does not implement it is not
bodyless (so the empty `amf0.String` is not); a value that implements it and answers false is
not bodyless, and the body of the loop then converts and assigns it (lines 63-70). -/
theorem isBodyless_iff_capability_answers_true (L : Lib T V A E) :
    (∀ x, isBodyless L x = true ↔ L.Bodyless x = some true) ∧
      (∀ x, L.Bodyless x = none → isBodyless L x = false) ∧
      (∀ x, L.Bodyless x = some false →
        isBodyless L x = false ∧
          ∀ (decode : R → Except E A × R) (i : Nat) (s : St T V R) (f : Field T V),
            s.v[i]? = some f → (decode s.r).1 = Except.ok x →
              body L decode i s = assign L i f x ⟨s.v, (decode s.r).2, s.calls + 1⟩) ∧
      Go.goLib.Bodyless (Go.amfStringOf "") = none ∧
      isBodyless Go.goLib (Go.amfStringOf "") = false := by
  refine ⟨?_, ?_, ?_, rfl, rfl⟩
  · intro x
    unfold isBodyless
    cases h : L.Bodyless x <;> simp
  · intro x h
    simp [isBodyless, h]
  · intro x h
    have hb : isBodyless L x = false := by simp [isBodyless, h]
    refine ⟨hb, ?_⟩
    intro decode i s f hf hd
    simp [body, hf, hd, hb]

/-- C10. The doc comment of `Unmarshal` (lines 37-38) says that a value of `amf0.Null` or
`amf0.Undefined` that is read is skipped; the code does not do so for a field that cannot hold
nil. In the struct of a `string` and an `int` read from a string and a null, the first field
is filled, the value read for the `int` field is the `amf0.Null`, and `Unmarshal` does not
skip it but returns an error. -/
theorem null_on_int_field_is_not_skipped :
    (Unmarshal Go.goLib Go.decodeList (Go.fresh [Go.GoType.string])
        [Go.amfStringOf "Ann", Go.amfNullValue]).1 = Outcome.nil ∧
      decoded Go.decodeList [Go.amfStringOf "Ann", Go.amfNullValue] 1 =
        Except.ok Go.amfNullValue ∧
      Go.amfNullValue.typeOf = some (Go.GoType.ptr Go.GoType.amfNull) ∧
      (Unmarshal Go.goLib Go.decodeList (Go.fresh [Go.GoType.string, Go.GoType.int])
        [Go.amfStringOf "Ann", Go.amfNullValue]).1 =
        Outcome.err "amf0: unable to assign nil to type int" := by
  refine ⟨rfl, rfl, rfl, rfl⟩

/-- C11, as the claim states it, fails: the error does not carry the index of the field. In
the struct of two strings, a null read for field 0 and a null read for field 1 (after field 0
is filled) make `Unmarshal` return one and the same error. And for an unexported field no
error is returned at all: for the struct of one unexported `string` read from a null the run
panics. -/
theorem nil_error_does_not_tell_the_index :
    decoded Go.decodeList [Go.amfNullValue] 0 = Except.ok Go.amfNullValue ∧
      (Unmarshal Go.goLib Go.decodeList (Go.fresh [Go.GoType.string, Go.GoType.string])
        [Go.amfNullValue]).1 = Outcome.err "amf0: unable to assign nil to type string" ∧
      (Unmarshal Go.goLib Go.decodeList (Go.fresh [Go.GoType.string, Go.GoType.string])
        [Go.amfNullValue]).2.calls = 1 ∧
      (Unmarshal Go.goLib Go.decodeList (Go.fresh [Go.GoType.string])
        [Go.amfStringOf "Ann", Go.amfNullValue]).1 = Outcome.nil ∧
      decoded Go.decodeList [Go.amfStringOf "Ann", Go.amfNullValue] 1 =
        Except.ok Go.amfNullValue ∧
      (Unmarshal Go.goLib Go.decodeList (Go.fresh [Go.GoType.string, Go.GoType.string])
        [Go.amfStringOf "Ann", Go.amfNullValue]).1 =
        Outcome.err "amf0: unable to assign nil to type string" ∧
      (Unmarshal Go.goLib Go.decodeList (Go.fresh [Go.GoType.string, Go.GoType.string])
        [Go.amfStringOf "Ann", Go.amfNullValue]).2.calls = 2 ∧
      (Unmarshal Go.goLib Go.decodeList
        [⟨⟨Go.GoType.string, false⟩, Go.GoValue.str Go.GoType.string ""⟩]
        [Go.amfNullValue]).1 = Outcome.panic := by
  refine ⟨rfl, rfl, rfl, rfl, rfl, rfl, rfl, rfl⟩

/-- C11, amended. When `Unmarshal` fails because a bodyless value was read for the exported
field `i`, which cannot hold nil, the error returned is the message `amf0: unable to assign nil
to type` followed by the declared type of the field as `%T` prints it. It carries that type
and nothing else: a run on another struct that fails this way at a field of the same
declaration, at whatever index, returns the same error. -/
theorem nil_error_names_the_field_type (L : Lib T V A E)
    (decode : R → Except E A × R) (dest : List (Field T V)) (r : R) (i : Nat)
    (f : Field T V) (x : A)
    (hf : dest[i]? = some f)
    (hpre : (Unmarshal L decode (dest.take i) r).1 = Outcome.nil)
    (hx : decoded decode r i = Except.ok x) (hb : isBodyless L x = true)
    (hn : canAssignNil L f = false) (hi : L.CanInterface f.typ = true) :
    (Unmarshal L decode dest r).1 =
        Outcome.err (L.Errorf ("amf0: unable to assign nil to type " ++ L.TypeString f.typ)) ∧
      ∀ (dest' : List (Field T V)) (r' : R) (j : Nat) (g : Field T V) (y : A),
        dest'[j]? = some g → g.typ = f.typ →
        (Unmarshal L decode (dest'.take j) r').1 = Outcome.nil →
        decoded decode r' j = Except.ok y → isBodyless L y = true →
        (Unmarshal L decode dest' r').1 = (Unmarshal L decode dest r).1 := by
  simp only [Unmarshal_eq_fill] at hpre ⊢
  have key : ∀ (d : List (Field T V)) (ρ : R) (k : Nat) (g : Field T V) (y : A),
      d[k]? = some g → (fill L decode (d.take k) ρ).1 = Outcome.nil →
      decoded decode ρ k = Except.ok y → isBodyless L y = true → canAssignNil L g = false →
      L.CanInterface g.typ = true →
      (fill L decode d ρ).1 =
        Outcome.err (L.Errorf ("amf0: unable to assign nil to type " ++ L.TypeString g.typ)) := by
    intro d ρ k g y hg hp hy hyb hgn hgi
    have ho : (fill L decode [g] (readerAt decode ρ k)).1 =
        Outcome.err (L.Errorf ("amf0: unable to assign nil to type " ++ L.TypeString g.typ)) := by
      rw [fill_cons_of_nilError L decode g [] _ y hy hyb hgn hgi]
    exact (fill_stop_at L decode d ρ k g _ hg hp ho (by simp)).2.1
  refine ⟨key dest r i f x hf hpre hx hb hn hi, ?_⟩
  intro dest' r' j g y hg ht hp hy hyb
  have hgn : canAssignNil L g = false := by
    have : canAssignNil L g = canAssignNil L f := by simp [canAssignNil, ht]
    rw [this]; exact hn
  rw [key dest' r' j g y hg hp hy hyb hgn (by rw [ht]; exact hi),
    key dest r i f x hf hpre hx hb hn hi, ht]

/-- Witness for C11, amended: the struct of a `string` and an `int` read from a string and a
null. -/
theorem nil_error_names_the_field_type_witness :
    (Unmarshal Go.goLib Go.decodeList (Go.fresh [Go.GoType.string, Go.GoType.int])
        [Go.amfStringOf "Ann", Go.amfNullValue]).1 =
      Outcome.err "amf0: unable to assign nil to type int" :=
  (nil_error_names_the_field_type Go.goLib Go.decodeList
    (Go.fresh [Go.GoType.string, Go.GoType.int])
    [Go.amfStringOf "Ann", Go.amfNullValue] 1
    ⟨⟨Go.GoType.int, true⟩, Go.GoValue.int 0⟩ Go.amfNullValue rfl rfl rfl rfl rfl rfl).1

/-- C12. `Unmarshal` is deterministic. For two records of the same schema read from the same
stream, the outcome, the number of calls of the decoder and the reader left behind are the
same; and when both records are freshly initialised (every field holds the zero value of its
type), the two runs give the same result in all: the same outcome and the same value in
every field. -/
theorem Unmarshal_is_deterministic (L : Lib T V A E)
    (decode : R → Except E A × R) (zero : T → V) (dest₁ dest₂ : List (Field T V)) (r : R)
    (hs : dest₁.map Field.typ = dest₂.map Field.typ) :
    ((Unmarshal L decode dest₁ r).1 = (Unmarshal L decode dest₂ r).1 ∧
        (Unmarshal L decode dest₁ r).2.calls = (Unmarshal L decode dest₂ r).2.calls ∧
        (Unmarshal L decode dest₁ r).2.r = (Unmarshal L decode dest₂ r).2.r) ∧
      ((∀ g, g ∈ dest₁ → g.val = zero g.typ) → (∀ g, g ∈ dest₂ → g.val = zero g.typ) →
        (Unmarshal L decode dest₁ r).1 = (Unmarshal L decode dest₂ r).1 ∧
          (Unmarshal L decode dest₁ r).2.v = (Unmarshal L decode dest₂ r).2.v ∧
          ∀ i : Nat,
            (Unmarshal L decode dest₁ r).2.v[i]? = (Unmarshal L decode dest₂ r).2.v[i]?) := by
  simp only [Unmarshal_eq_fill]
  have h := fill_schema L decode dest₁ dest₂ r hs
  refine ⟨⟨h.1, h.2.2.1, h.2.1⟩, ?_⟩
  intro h1 h2
  have heq := eq_of_fresh zero dest₁ dest₂ hs h1 h2
  subst heq
  exact ⟨rfl, rfl, fun _ => rfl⟩

/-- Witness for C12: two fresh structs of a `string` and a `*int`, read from a string and a
null. -/
theorem Unmarshal_is_deterministic_witness :
    (Unmarshal Go.goLib Go.decodeList (Go.fresh [Go.GoType.string, Go.GoType.ptr Go.GoType.int])
        [Go.amfStringOf "Ann", Go.amfNullValue]).2.v =
      (Unmarshal Go.goLib Go.decodeList
        [⟨⟨Go.GoType.string, true⟩, Go.GoValue.str Go.GoType.string ""⟩,
          ⟨⟨Go.GoType.ptr Go.GoType.int, true⟩, Go.GoValue.nilPtr Go.GoType.int⟩]
        [Go.amfStringOf "Ann", Go.amfNullValue]).2.v :=
  ((Unmarshal_is_deterministic Go.goLib Go.decodeList (fun d => d.type.zero)
    (Go.fresh [Go.GoType.string, Go.GoType.ptr Go.GoType.int])
    [⟨⟨Go.GoType.string, true⟩, Go.GoValue.str Go.GoType.string ""⟩,
      ⟨⟨Go.GoType.ptr Go.GoType.int, true⟩, Go.GoValue.nilPtr Go.GoType.int⟩]
    [Go.amfStringOf "Ann", Go.amfNullValue] rfl).2 (by decide) (by decide)).2.1

/-- C13, as the claim states it, fails for an unexported field: in the struct of an exported
`string` and an unexported `string` read from two strings, the second value has a body and
its payload converts to `string`, and yet nothing is assigned to the unexported field: the
call of `Set` panics and the field still holds the empty string. -/
theorem unexported_field_is_not_assigned :
    (Unmarshal Go.goLib Go.decodeList (Go.fresh [Go.GoType.string])
        [Go.amfStringOf "Ann", Go.amfStringOf "Bob"]).1 = Outcome.nil ∧
      decoded Go.decodeList [Go.amfStringOf "Ann", Go.amfStringOf "Bob"] 1 =
        Except.ok (Go.amfStringOf "Bob") ∧
      isBodyless Go.goLib (Go.amfStringOf "Bob") = false ∧
      canAssignNil Go.goLib ⟨⟨Go.GoType.string, false⟩, Go.GoValue.str Go.GoType.string ""⟩ =
        false ∧
      Go.goLib.Elem (Go.goLib.ValueOf (Go.amfStringOf "Bob")) =
        some (Go.GoValue.str Go.GoType.amfString "Bob") ∧
      Go.goLib.Convert (Go.GoValue.str Go.GoType.amfString "Bob") ⟨Go.GoType.string, false⟩ =
        some (Go.GoValue.str Go.GoType.string "Bob") ∧
      (Unmarshal Go.goLib Go.decodeList
        [⟨⟨Go.GoType.string, true⟩, Go.GoValue.str Go.GoType.string ""⟩,
          ⟨⟨Go.GoType.string, false⟩, Go.GoValue.str Go.GoType.string ""⟩]
        [Go.amfStringOf "Ann", Go.amfStringOf "Bob"]).1 = Outcome.panic ∧
      (Unmarshal Go.goLib Go.decodeList
        [⟨⟨Go.GoType.string, true⟩, Go.GoValue.str Go.GoType.string ""⟩,
          ⟨⟨Go.GoType.string, false⟩, Go.GoValue.str Go.GoType.string ""⟩]
        [Go.amfStringOf "Ann", Go.amfStringOf "Bob"]).2.v[1]? =
        some ⟨⟨Go.GoType.string, false⟩, Go.GoValue.str Go.GoType.string ""⟩ := by
  refine ⟨rfl, rfl, rfl, rfl, rfl, rfl, rfl, rfl⟩

/-- C13, amended. When the first `i` fields are filled and the value read for field `i` has a
body: if field `i` can hold nil, the value converted is the decoded value itself, as the
decoder handed it back; if it cannot, the value converted is what `Elem` gives for the decoded
value, its payload one dereference down. In both cases, when field `i` can be set (is
exported), it ends up holding the conversion of that value to its declared type. -/
theorem assigned_value_is_reduced_by_field_class (L : Lib T V A E)
    (decode : R → Except E A × R) (dest : List (Field T V)) (r : R) (i : Nat)
    (f : Field T V) (x : A)
    (hf : dest[i]? = some f)
    (hpre : (Unmarshal L decode (dest.take i) r).1 = Outcome.nil)
    (hx : decoded decode r i = Except.ok x) (hb : isBodyless L x = false) :
    (canAssignNil L f = true →
        reduce L f x = some (L.ValueOf x) ∧
          ∀ c, L.Convert (L.ValueOf x) f.typ = some c → L.CanSet f.typ = true →
            (Unmarshal L decode dest r).2.v[i]? = some (Field.mk f.typ c)) ∧
      (canAssignNil L f = false →
        reduce L f x = L.Elem (L.ValueOf x) ∧
          ∀ p c, L.Elem (L.ValueOf x) = some p → L.Convert p f.typ = some c →
            L.CanSet f.typ = true →
            (Unmarshal L decode dest r).2.v[i]? = some (Field.mk f.typ c)) := by
  simp only [Unmarshal_eq_fill] at hpre ⊢
  constructor
  · intro hn
    have hr : reduce L f x = some (L.ValueOf x) := by simp [reduce, hn]
    refine ⟨hr, ?_⟩
    intro c hc hs
    exact (fill_assign_at L decode dest r i f x c hf hpre hx hb
      (by simp [converted, hr, hc]) hs).2
  · intro hn
    have hr : reduce L f x = L.Elem (L.ValueOf x) := by simp [reduce, hn]
    refine ⟨hr, ?_⟩
    intro p c hp hc hs
    exact (fill_assign_at L decode dest r i f x c hf hpre hx hb
      (by simp [converted, hr, hp, hc]) hs).2

/-- Witness for C13, amended: in the struct of a `string` and a `*string` read from two strings, the
`*string` field holds the converted pointer. -/
theorem assigned_value_is_reduced_by_field_class_witness :
    (Unmarshal Go.goLib Go.decodeList (Go.fresh [Go.GoType.string, Go.GoType.ptr Go.GoType.string])
        [Go.amfStringOf "Ann", Go.amfStringOf "Bob"]).2.v[1]? =
      some ⟨⟨Go.GoType.ptr Go.GoType.string, true⟩,
        Go.GoValue.ptrTo Go.GoType.string (Go.GoValue.str Go.GoType.string "Bob")⟩ :=
  ((assigned_value_is_reduced_by_field_class Go.goLib Go.decodeList
    (Go.fresh [Go.GoType.string, Go.GoType.ptr Go.GoType.string])
    [Go.amfStringOf "Ann", Go.amfStringOf "Bob"] 1
    ⟨⟨Go.GoType.ptr Go.GoType.string, true⟩, Go.GoValue.nilPtr Go.GoType.string⟩
    (Go.amfStringOf "Bob") rfl rfl rfl rfl).1 rfl).2
    (Go.GoValue.ptrTo Go.GoType.string (Go.GoValue.str Go.GoType.string "Bob")) rfl rfl

/-- C14, as the claim states it, fails for arrays: `canAssignNil` answers true for a field of
kind array, so a null read for the field `[2]int` is skipped, and `Unmarshal` returns nil with
the field as it was. And for an unexported struct field no error is returned: for the struct
of one unexported `struct{}` read from a null the run panics. -/
theorem null_on_array_field_is_skipped :
    Go.goLib.KindOf ⟨Go.GoType.intArray 2, true⟩ = Kind.Array ∧
      canAssignNil Go.goLib ⟨⟨Go.GoType.intArray 2, true⟩, Go.GoValue.ints [0, 0]⟩ = true ∧
      decoded Go.decodeList [Go.amfNullValue] 0 = Except.ok Go.amfNullValue ∧
      isBodyless Go.goLib Go.amfNullValue = true ∧
      Unmarshal Go.goLib Go.decodeList (Go.fresh [Go.GoType.intArray 2]) [Go.amfNullValue] =
        (Outcome.nil, ⟨[⟨⟨Go.GoType.intArray 2, true⟩, Go.GoValue.ints [0, 0]⟩], [], 1⟩) ∧
      Go.goLib.KindOf ⟨Go.GoType.emptyStruct, false⟩ = Kind.Struct ∧
      (Unmarshal Go.goLib Go.decodeList
        [⟨⟨Go.GoType.emptyStruct, false⟩, Go.GoValue.unit Go.GoType.emptyStruct⟩]
        [Go.amfNullValue]).1 = Outcome.panic := by
  refine ⟨rfl, rfl, rfl, rfl, rfl, rfl, rfl⟩

/-- C14, amended. Every field whose declared type is a struct cannot hold nil; when the first
`i` fields are filled and the value read for the exported struct field `i` is bodyless,
`Unmarshal` fails with the error of lines 55-57 and does not skip the field. -/
theorem bodyless_value_on_struct_field_is_error (L : Lib T V A E)
    (decode : R → Except E A × R) (dest : List (Field T V)) (r : R) (i : Nat)
    (f : Field T V) (x : A)
    (hk : L.KindOf f.typ = Kind.Struct) (hi : L.CanInterface f.typ = true)
    (hf : dest[i]? = some f)
    (hpre : (Unmarshal L decode (dest.take i) r).1 = Outcome.nil)
    (hx : decoded decode r i = Except.ok x) (hb : isBodyless L x = true) :
    canAssignNil L f = false ∧
      (Unmarshal L decode dest r).1 =
        Outcome.err (L.Errorf ("amf0: unable to assign nil to type " ++ L.TypeString f.typ)) ∧
      (Unmarshal L decode (dest.take (i + 1)) r).1 ≠ Outcome.nil := by
  simp only [Unmarshal_eq_fill] at hpre ⊢
  have hn : canAssignNil L f = false := by simp [canAssignNil, hk]
  have ho : (fill L decode [f] (readerAt decode r i)).1 =
      Outcome.err (L.Errorf ("amf0: unable to assign nil to type " ++ L.TypeString f.typ)) := by
    rw [fill_cons_of_nilError L decode f [] _ x hx hb hn hi]
  have h := fill_stop_at L decode dest r i f _ hf hpre ho (by simp)
  refine ⟨hn, h.2.1, ?_⟩
  rw [h.1]
  simp

/-- Witness for C14, amended: the struct of a `string` and a `struct{}` read from a string
and a null. -/
theorem bodyless_value_on_struct_field_is_error_witness :
    (Unmarshal Go.goLib Go.decodeList (Go.fresh [Go.GoType.string, Go.GoType.emptyStruct])
        [Go.amfStringOf "Ann", Go.amfNullValue]).1 =
      Outcome.err "amf0: unable to assign nil to type struct \x7b\x7d" :=
  (bodyless_value_on_struct_field_is_error Go.goLib Go.decodeList
    (Go.fresh [Go.GoType.string, Go.GoType.emptyStruct])
    [Go.amfStringOf "Ann", Go.amfNullValue] 1
    ⟨⟨Go.GoType.emptyStruct, true⟩, Go.GoValue.unit Go.GoType.emptyStruct⟩ Go.amfNullValue
    rfl rfl rfl rfl rfl rfl).2.1

/-- C15. An error returned by `Unmarshal` is either the error the decoder returned for some
field `i`, handed on as it is, or the error `amf0: unable to assign nil to type ...` made for
a bodyless value read for a field `i` that cannot hold nil. A failed `Elem` or `Convert`
never gives an error value: the run then ends in a panic. -/
theorem returned_error_is_decoder_or_nil_error (L : Lib T V A E)
    (decode : R → Except E A × R) (dest : List (Field T V)) (r : R) :
    (∀ e, (Unmarshal L decode dest r).1 = Outcome.err e →
        ∃ (i : Nat) (f : Field T V), dest[i]? = some f ∧
          (Unmarshal L decode (dest.take i) r).1 = Outcome.nil ∧
          (decoded decode r i = Except.error e ∨
            ∃ x, decoded decode r i = Except.ok x ∧ isBodyless L x = true ∧
              canAssignNil L f = false ∧
              e = L.Errorf ("amf0: unable to assign nil to type " ++ L.TypeString f.typ))) ∧
      (∀ (i : Nat) (f : Field T V) (x : A), dest[i]? = some f →
        (Unmarshal L decode (dest.take i) r).1 = Outcome.nil →
        decoded decode r i = Except.ok x → isBodyless L x = false →
        converted L f x = none →
          (Unmarshal L decode dest r).1 = Outcome.panic ∧
            ∀ e, (Unmarshal L decode dest r).1 ≠ Outcome.err e) := by
  simp only [Unmarshal_eq_fill]
  constructor
  · intro e he
    obtain ⟨i, hi, hpre, hsucc⟩ := fill_stop_index L decode dest r (by rw [he]; simp)
    have hf : dest[i]? = some dest[i] := List.getElem?_eq_getElem hi
    refine ⟨i, dest[i], hf, hpre, ?_⟩
    rw [he, fill_take_succ_outcome L decode dest r i _ hf hpre] at hsucc
    cases hr : round L dest[i] (decode (readerAt decode r i)).1 with
    | stop o =>
      rw [fill_cons_of_stop L decode dest[i] [] _ o hr] at hsucc
      have ho : o = Outcome.err e := hsucc
      rw [ho] at hr
      exact round_err_cases L dest[i] _ e hr
    | next g =>
      rw [fill_cons_of_next L decode dest[i] [] _ g hr] at hsucc
      simp [afterField, fill] at hsucc
  · intro i f x hf hpre hx hb hc
    have ho : (fill L decode [f] (readerAt decode r i)).1 = Outcome.panic := by
      rw [fill_cons_of_panic L decode f [] _ x hx hb hc]
    have h := fill_stop_at L decode dest r i f Outcome.panic hf hpre ho (by simp)
    refine ⟨h.2.1, ?_⟩
    intro e he
    rw [h.2.1] at he
    cases he

/-- C16. Filling a record whose fields are the fields `l₁` followed by the fields `l₂` is
filling `l₁` and then, when that returns nil, filling `l₂` from the stream as the first run
left it: the outcome is that of the second run, the fields are those of the two runs, the
calls of the decoder add up. When the run on `l₁` does not return nil, the whole run ends the
same way, with the same error, and `l₂` is left as it was. -/
theorem Unmarshal_append (L : Lib T V A E) (decode : R → Except E A × R)
    (l₁ l₂ : List (Field T V)) (r : R) :
    ((Unmarshal L decode l₁ r).1 = Outcome.nil →
        Unmarshal L decode (l₁ ++ l₂) r =
          ((Unmarshal L decode l₂ (Unmarshal L decode l₁ r).2.r).1,
            ⟨(Unmarshal L decode l₁ r).2.v ++
                (Unmarshal L decode l₂ (Unmarshal L decode l₁ r).2.r).2.v,
              (Unmarshal L decode l₂ (Unmarshal L decode l₁ r).2.r).2.r,
              (Unmarshal L decode l₁ r).2.calls +
                (Unmarshal L decode l₂ (Unmarshal L decode l₁ r).2.r).2.calls⟩)) ∧
      ((Unmarshal L decode l₁ r).1 ≠ Outcome.nil →
        Unmarshal L decode (l₁ ++ l₂) r =
          ((Unmarshal L decode l₁ r).1,
            ⟨(Unmarshal L decode l₁ r).2.v ++ l₂, (Unmarshal L decode l₁ r).2.r,
              (Unmarshal L decode l₁ r).2.calls⟩)) := by
  simp only [Unmarshal_eq_fill]
  constructor
  · intro h
    rw [fill_append_of_nil L decode l₂ l₁ r h]
    rfl
  · intro h
    exact fill_append_of_stop L decode l₂ l₁ r h

/-- C17. The skip leaves the field as it is and does not reset it: when the first `i` fields
are filled, field `i` can hold nil, holds any value before the call, and the value read for
it is bodyless, field `i` holds that same value after the call. -/
theorem bodyless_value_leaves_field_unchanged (L : Lib T V A E)
    (decode : R → Except E A × R) (dest : List (Field T V)) (r : R) (i : Nat)
    (f : Field T V) (x : A)
    (hf : dest[i]? = some f) (hn : canAssignNil L f = true)
    (hpre : (Unmarshal L decode (dest.take i) r).1 = Outcome.nil)
    (hx : decoded decode r i = Except.ok x) (hb : isBodyless L x = true) :
    (Unmarshal L decode dest r).2.v[i]? = dest[i]? ∧
      (Unmarshal L decode dest r).2.v[i]? = some f := by
  simp only [Unmarshal_eq_fill] at hpre ⊢
  have h := fill_skip_at L decode dest r i f x hf hn hpre hx hb
  exact ⟨by rw [h.2.1, hf], h.2.1⟩

/-- Witness for C17: a `*string` field that points at the string `old` before the call still
does so after a null is read for it. -/
theorem bodyless_value_leaves_field_unchanged_witness :
    (Unmarshal Go.goLib Go.decodeList
        [⟨⟨Go.GoType.ptr Go.GoType.string, true⟩,
          Go.GoValue.ptrTo Go.GoType.string (Go.GoValue.str Go.GoType.string "old")⟩]
        [Go.amfNullValue]).2.v[0]? =
      some ⟨⟨Go.GoType.ptr Go.GoType.string, true⟩,
        Go.GoValue.ptrTo Go.GoType.string (Go.GoValue.str Go.GoType.string "old")⟩ :=
  (bodyless_value_leaves_field_unchanged Go.goLib Go.decodeList
    [⟨⟨Go.GoType.ptr Go.GoType.string, true⟩,
      Go.GoValue.ptrTo Go.GoType.string (Go.GoValue.str Go.GoType.string "old")⟩]
    [Go.amfNullValue] 0
    ⟨⟨Go.GoType.ptr Go.GoType.string, true⟩,
      Go.GoValue.ptrTo Go.GoType.string (Go.GoValue.str Go.GoType.string "old")⟩
    Go.amfNullValue rfl rfl rfl rfl rfl).2

/-- C18. On a record with no fields `Unmarshal` returns nil for every decoder and every
stream, without a call of the decoder: the reader is left as it was and the record stays
empty. So it does on the empty stream, on which a call of the decoder would fail. -/
theorem Unmarshal_of_no_fields (L : Lib T V A E) (decode : R → Except E A × R) (r : R) :
    Unmarshal L decode [] r = (Outcome.nil, ⟨[], r, 0⟩) ∧
      decoded Go.decodeList [] 0 = Except.error "EOF" ∧
      Unmarshal Go.goLib Go.decodeList [] [] = (Outcome.nil, ⟨[], [], 0⟩) :=
  ⟨rfl, rfl, rfl⟩

end Claims
end Amf0
